import Mathlib

/-!
Shallow embedding of the conflict-aware write pipeline of `roas-restql`
(`src/lib/middlewares.js`) and of the association query rewriters
(`src/unnamed/part_000`, `loaders.model.association.plural.get`).

JavaScript values appearing in records are modelled by the inductive type
`Value`; JS objects holding data rows are modelled as association lists
(`Record`).  The external store adapter (Sequelize model methods `create`,
`bulkCreate`, `upsert`, `update`, `find`, `findAll`, instance `restore`) is
not part of this repository; following section 6 of the specification it is
modelled as an oracle (`Store`) giving a response to every call, and each
embedded operation additionally returns the ordered list of store calls it
issued, so that statements about "no mutation was issued" are expressible.

`common.switchByType`, required by `middlewares.js` but absent from the
sources, is modelled from the spec as dispatch on the runtime type of its
argument (a handler per type, a missing handler yielding `undefined`); each
use site is specialised accordingly and noted in a comment.
-/

namespace RoasRestql

/-- Runtime values stored in record fields.  `vUndefined` is JavaScript
`undefined`, `vDate t` a `Date` with timestamp `t`. -/
inductive Value where
  | vNull
  | vUndefined
  | vBool (b : Bool)
  | vInt (n : Int)
  | vStr (s : String)
  | vDate (t : Int)
deriving DecidableEq, Repr

/-- JavaScript truthiness restricted to the modelled value domain. -/
def jsTruthy : Value → Bool
  | .vNull => false
  | .vUndefined => false
  | .vBool b => b
  | .vInt n => n != 0
  | .vStr s => s != ""
  | .vDate _ => true

/-- A data row / input record: a JS object as an association list in
insertion order (JS objects have no duplicate keys). -/
abbrev Record := List (String × Value)

/-- `r[k]`: property read, `undefined` when the key is absent. -/
def getField (r : Record) (k : String) : Value :=
  match r.find? (fun kv => kv.1 = k) with
  | some kv => kv.2
  | none => .vUndefined

/-- `r[k] = v`: property write, replacing an existing key in place or
appending a new one (JS object insertion-order semantics). -/
def setField (r : Record) (k : String) (v : Value) : Record :=
  if r.any (fun kv => kv.1 = k) then
    r.map (fun kv => if kv.1 = k then (k, v) else kv)
  else r ++ [(k, v)]

/-- `delete r[k]`. -/
def removeField (r : Record) (k : String) : Record :=
  r.filter (fun kv => kv.1 ≠ k)

/-- `Object.keys(r)`. -/
def recordKeys (r : Record) : List String :=
  r.map (fun kv => kv.1)

/-- Lexicographic comparison of character lists by code point, the order of
JS `Array.prototype.sort` on strings. -/
def charListLe : List Char → List Char → Bool
  | [], _ => true
  | _ :: _, [] => false
  | a :: as, b :: bs =>
    if a.toNat < b.toNat then true
    else if b.toNat < a.toNat then false
    else charListLe as bs

/-- String comparison for `keys.sort()`. -/
def strLe (a b : String) : Bool :=
  charListLe a.data b.data

/-- Insertion of a string into a sorted list. -/
def insertSorted (s : String) : List String → List String
  | [] => [s]
  | x :: xs => if strLe s x then s :: x :: xs else x :: insertSorted s xs

/-- `keys.sort()` on a list of strings. -/
def sortStrings (l : List String) : List String :=
  l.foldr insertSorted []

/-- JS `value.split('-')`: splits at every dash; the empty string yields
`[""]`. -/
def splitDashAux : List Char → List Char → List String
  | [], acc => [String.mk acc.reverse]
  | c :: cs, acc =>
    if c = '-' then String.mk acc.reverse :: splitDashAux cs []
    else splitDashAux cs (c :: acc)

/-- JS `value.split('-')` on a string. -/
def splitDash (s : String) : List String :=
  splitDashAux s.data []

/-- JS strict equality `===` between a value read from a freshly fetched
store row and a value from an input record.  `Date` objects compare by
reference in JS; two `Date`s from distinct object graphs are never the same
reference, so the comparison is `false` on dates. -/
def jsStrictEq : Value → Value → Bool
  | .vDate _, .vDate _ => false
  | a, b => a = b

/-- JS loose equality `==` restricted to the modelled value domain:
`null == undefined`, numeric strings coerce against numbers, dates (object
references from distinct graphs) never compare equal. -/
def jsLooseEq : Value → Value → Bool
  | .vNull, .vUndefined => true
  | .vUndefined, .vNull => true
  | .vInt n, .vStr s => (s.toInt?).any (fun m => m = n)
  | .vStr s, .vInt n => (s.toInt?).any (fun m => m = n)
  | .vDate _, .vDate _ => false
  | a, b => a = b

/-- An attribute of a model: only its declared default value matters to the
embedded code.  `vUndefined` encodes an attribute declared without
`defaultValue`. -/
structure Attribute where
  defaultValue : Value := .vUndefined
deriving DecidableEq, Repr

/-- An entry of `model.options.indexes`. -/
structure IndexDecl where
  name : String
  unique : Bool
  fields : List String
deriving DecidableEq, Repr

/-- An entry of `model.options.uniqueKeys` (always unique). -/
structure UniqueKeyDecl where
  name : String
  fields : List String
deriving DecidableEq, Repr

/-- The model descriptor consumed by `middlewares.js`: attribute map,
primary-key field list, declared indexes, named unique keys, and the
paranoid / deletedAt options.  `deletedAt = none` models an unconfigured
(falsy) `model.options.deletedAt`. -/
structure Model where
  name : String
  attributes : List (String × Attribute)
  primaryKeys : List String
  indexes : List IndexDecl
  uniqueKeys : List UniqueKeyDecl
  paranoid : Bool
  deletedAt : Option String
deriving DecidableEq, Repr

/-- An index as produced by `_getIndexes`. -/
structure Index where
  name : String
  unique : Bool
  primary : Bool
  fields : List String
deriving DecidableEq, Repr

/-- Embeds `_getIndexes` (middlewares.js:12): the primary index first when
primary keys exist, then `options.indexes`, then `options.uniqueKeys` in
declaration order. -/
def _getIndexes (m : Model) : List Index :=
  (if m.primaryKeys.isEmpty then [] else
    [{ name := "PRIMARY", unique := true, primary := true, fields := m.primaryKeys }])
  ++ m.indexes.map (fun i => { name := i.name, unique := i.unique, primary := false, fields := i.fields })
  ++ m.uniqueKeys.map (fun u => { name := u.name, unique := true, primary := false, fields := u.fields })

/-- Embeds `_getUniqueIndexes` (middlewares.js:53). -/
def _getUniqueIndexes (m : Model) : List Index :=
  (_getIndexes m).filter (fun i => i.unique)

/-- Embeds `_getInstanceValidIndexes` (middlewares.js:59): the indexes whose
every field is present (not `undefined`) in the record. -/
def _getInstanceValidIndexes (indexes : List Index) (data : Record) : List Index :=
  indexes.filter (fun i => i.fields.all (fun f => getField data f ≠ .vUndefined))

/-- Embeds `_getInstanceValidIndexFields` (middlewares.js:69): the identity
predicate drawn from the first valid index, `none` when no index fully
matches. -/
def _getInstanceValidIndexFields (indexes : List Index) (data : Record) : Option Record :=
  match _getInstanceValidIndexes indexes data with
  | [] => none
  | i :: _ => some (i.fields.map (fun f => (f, getField data f)))

/-- Looks up an attribute by name; JS `model.attributes[key]`. -/
def attrOf (m : Model) (k : String) : Option Attribute :=
  match m.attributes.find? (fun kv => kv.1 = k) with
  | some kv => some kv.2
  | none => none

/-- An error raised by a store call: `uniq` is true when
`error.name === 'SequelizeUniqueConstraintError'`; `fields` is the
`error.fields` payload of a uniqueness violation. -/
structure StoreErr where
  uniq : Bool
  fields : Option Record
deriving DecidableEq, Repr

/-- Errors surfaced by the orchestrator: `http status msg` for `ctx.throw`,
`internal` for `throw new Error(...)` and for JS runtime faults
(TypeError). -/
inductive Err where
  | http (status : Nat) (msg : String)
  | internal (msg : String)
deriving DecidableEq, Repr

/-- A store call issued by the orchestrator, recorded in order.  `create`,
`bulkCreate`, `upsert`, `update` and `restore` mutate the store; `find`,
`findAllOr` and `findAllScope` are reads. -/
inductive StoreCall where
  | create (record : Record)
  | bulkCreate (records : List Record) (updateOnDuplicate : Option (List String))
  | upsert (record : Record)
  | update (patch : Record) (whereFields : Option Record)
  | restore (whereFields : Record)
  | find (whereFields : Record) (paranoid : Bool)
  | findAllOr (ors : List (Option Record)) (orderByIdAsc : Bool)
  | findAllScope (whereFields : Option Record)
deriving DecidableEq, Repr

/-- Whether a store call writes to the store. -/
def StoreCall.isMutating : StoreCall → Bool
  | .create _ => true
  | .bulkCreate _ _ => true
  | .upsert _ => true
  | .update _ _ => true
  | .restore _ => true
  | .find _ _ => false
  | .findAllOr _ _ => false
  | .findAllScope _ => false

/-- The store adapter as a response oracle (spec section 6): one response
function per call shape.  `findR where paranoid` is `model.find` (`paranoid`
false means soft-deleted rows are included); `findAllOrR ors order` is
`model.findAll({where: {$or: ors}, ...})`. -/
structure Store where
  createR : Record → Except StoreErr Record
  upsertR : Record → Except StoreErr Bool
  bulkCreateR : List Record → Option (List String) → Except StoreErr Unit
  updateR : Record → Option Record → Except StoreErr Unit
  findR : Record → Bool → Option Record
  findAllOrR : List (Option Record) → Bool → List Record
  findAllScopeR : Option Record → List Record

instance {ε α : Type} [DecidableEq ε] [DecidableEq α] : DecidableEq (Except ε α) := fun x y =>
  match x, y with
  | .ok a, .ok b =>
    if h : a = b then .isTrue (congrArg Except.ok h)
    else .isFalse (fun he => h (Except.ok.inj he))
  | .error a, .error b =>
    if h : a = b then .isTrue (congrArg Except.error h)
    else .isFalse (fun he => h (Except.error.inj he))
  | .ok _, .error _ => .isFalse (fun he => Except.noConfusion he)
  | .error _, .ok _ => .isFalse (fun he => Except.noConfusion he)

/-- The "not deleted" sentinel: the declared default of the deletedAt
attribute, or `null` when undeclared (the `defaultDeletedAt` computation
shared by `isDeleted` at middlewares.js:257 and `setDefaultDeletedValue`
at middlewares.js:286). -/
def defaultDeletedValue (m : Model) (col : String) : Value :=
  let d := match attrOf m col with
    | some a => a.defaultValue
    | none => .vUndefined
  if d = .vUndefined then .vNull else d

/-- Embeds `isDeleted` (middlewares.js:243).  When the model is not paranoid
or has no deletedAt column the row is never deleted; an absent row is
deleted; otherwise the row's deletedAt value is compared with the declared
default (`null` when undeclared): by timestamp when both are `Date`s, by
strict `!==` otherwise.  A deletedAt column missing from `attributes` would
be a JS TypeError; it is modelled as an undeclared default and excluded by
the theorems' hypotheses. -/
def isDeleted (m : Model) (row : Option Record) : Bool :=
  match m.deletedAt, m.paranoid with
  | some col, true =>
    match row with
    | none => true
    | some r =>
      let dflt := defaultDeletedValue m col
      let v := getField r col
      match dflt, v with
      | .vDate t1, .vDate t2 => t1 ≠ t2
      | d, w => d ≠ w
  | _, _ => false

/-- Embeds `setDefaultDeletedValue` (middlewares.js:272) applied to a single
object record (`common.switchByType`, absent from the sources, is modelled
as dispatch on the runtime type, here the `object` handler). -/
def stampRecord (m : Model) (r : Record) : Record :=
  match m.deletedAt, m.paranoid with
  | some col, true => setField r col (defaultDeletedValue m col)
  | _, _ => r

/-- Embeds `setDefaultDeletedValue` (middlewares.js:272) applied to an array
of records (the `array` handler of the modelled `switchByType`). -/
def stampBatch (m : Model) (rs : List Record) : List Record :=
  match m.deletedAt, m.paranoid with
  | some col, true => rs.map (fun r => setField r col (defaultDeletedValue m col))
  | _, _ => rs

/-- Embeds `_getUniqueConstraintErrorFields` (middlewares.js:207): if every
reported field name is a real attribute the payload is returned as-is;
otherwise a unique index named in the payload is looked up and its reported
value decoded into one value per index field (a number maps to a singleton,
a string splits on `-`; other runtime types have no `switchByType` handler
and decode to `undefined`). -/
def _getUniqueConstraintErrorFields (m : Model) (e : StoreErr) : Option Record :=
  match e.fields with
  | none => none
  | some fields =>
    if (recordKeys fields).all (fun k => (attrOf m k).isSome) then
      some fields
    else
      let uniqueIndexes := _getUniqueIndexes m
      match uniqueIndexes.find? (fun i => jsTruthy (getField fields i.name)) with
      | none => none
      | some idx =>
        let v := getField fields idx.name
        let parts : Option (List Value) := match v with
          | .vInt n => some [.vInt n]
          | .vStr s => some ((splitDash s).map .vStr)
          | _ => none
        match parts with
        | none => none
        | some ps =>
          if ps.isEmpty then none
          else some (idx.fields.enum.map (fun p => (p.2, ps.getD p.1 .vUndefined)))

/-- Embeds `_handleUniqueConstraintError` (middlewares.js:298), the conflict
resolver.  In the source the guard at line 311 reads
`if (!deletedAtCol || !paranoid) ;` — the statement guarded by the `if` is
the empty statement, so the `ctx.throw(message, 409)` on the next line runs
unconditionally.  The function therefore always raises 409 without issuing
any store call, and the lookup / soft-delete check / default-reset code at
lines 314-335 is unreachable. -/
def _handleUniqueConstraintError (st : Store) (m : Model) (e : StoreErr)
    (ignoreDuplicates : Bool) : Except Err (Record × Record) × List StoreCall :=
  let _fields := _getUniqueConstraintErrorFields m e
  let _ := st
  let _ := ignoreDuplicates
  (.error (.http 409 ("RestQL: " ++ m.name ++ " unique constraint error")), [])

/-- Restoration of a soft-deleted row (`data.restore()`): the store persists
the "not deleted" sentinel on the row (spec section 4.2). -/
def restoreRow (m : Model) (r : Record) : Record :=
  stampRecord m r

/-- Embeds `_upsert` (middlewares.js:90): select an identity predicate from
the unique indexes (400 when none), native store upsert (409 on uniqueness
violation), re-fetch by the predicate (soft-delete-inclusive on a miss),
restore the fetched row when soft-deleted, return `{created, data}`.
`data.restore()` on a missing row would be a JS TypeError. -/
def _upsert (st : Store) (m : Model) (data : Record) :
    Except Err (Bool × Option Record) × List StoreCall :=
  let uniqueIndexes := _getUniqueIndexes m
  match _getInstanceValidIndexFields uniqueIndexes data with
  | none => (.error (.http 400 "RestQL: unique index fields cannot be found"), [])
  | some w =>
    match st.upsertR data with
    | .error e =>
      if e.uniq then
        (.error (.http 409 ("RestQL: " ++ m.name ++ " unique constraint error")),
          [.upsert data])
      else (.error (.internal "Error"), [.upsert data])
    | .ok created =>
      let (found, tr) :=
        match st.findR w true with
        | some d => (some d, [StoreCall.upsert data, .find w true])
        | none => (st.findR w false, [StoreCall.upsert data, .find w true, .find w false])
      if isDeleted m found then
        match found with
        | some d => (.ok (created, some (restoreRow m d)), tr ++ [.restore w])
        | none => (.error (.internal "TypeError"), tr)
      else (.ok (created, found), tr)

/-- `JSON.stringify(Object.keys(row).sort())` comparison of _bulkUpsert's
homogeneity check, as equality of sorted key lists. -/
def keysSignature (r : Record) : List String :=
  sortStrings (recordKeys r)

/-- The homogeneity validation of `_bulkUpsert` (middlewares.js:147): every
record's sorted key list equals the first record's. -/
def homogeneous (data : List Record) : Bool :=
  match data with
  | [] => true
  | d0 :: _ => data.all (fun r => keysSignature r = keysSignature d0)

/-- The `forEach` of `_bulkUpsert` (middlewares.js:162) computing one
identity predicate per record, raising 400 on the first record without
one. -/
def computeOrs (m : Model) (data : List Record) : Except Err (List Record) :=
  data.mapM (fun r =>
    match _getInstanceValidIndexFields (_getUniqueIndexes m) r with
    | some w => Except.ok w
    | none => Except.error (Err.http 400 "RestQL: unique index fields cannot be found"))

/-- Embeds `_bulkUpsert` (middlewares.js:139): empty batch short-circuits to
`[]`; heterogeneous batch raises 400; one identity per record (400 on
failure); single `bulkCreate` with `updateOnDuplicate` = the first record's
keys minus `id` (409 on uniqueness violation); re-fetch of all affected rows
by the identity union ordered by ascending id. -/
def _bulkUpsert (st : Store) (m : Model) (data : List Record) :
    Except Err (List Record) × List StoreCall :=
  match data with
  | [] => (.ok [], [])
  | d0 :: _ =>
    if !homogeneous data then
      (.error (.http 400 "RestQL: array elements have different attributes"), [])
    else
      match computeOrs m data with
      | .error e => (.error e, [])
      | .ok ors =>
        let updatedFields := (recordKeys d0).filter (fun k => k ≠ "id")
        match st.bulkCreateR data (some updatedFields) with
        | .error e =>
          if e.uniq then
            (.error (.http 409 ("RestQL: " ++ m.name ++ " unique constraint error")),
              [.bulkCreate data (some updatedFields)])
          else (.error (.internal "Error"), [.bulkCreate data (some updatedFields)])
        | .ok _ =>
          let rows := st.findAllOrR (ors.map some) true
          (.ok rows,
            [.bulkCreate data (some updatedFields), .findAllOr (ors.map some) true])

/-- `_.assign({}, base, over)`: the fields of `base` then those of `over`,
later writes overriding earlier keys in place. -/
def mergeAssign (base over : Record) : Record :=
  over.foldl (fun acc kv => setField acc kv.1 kv.2) base

/-- Embeds `_update` (middlewares.js:464): delete a truthy `id` from the
patch, store update, re-fetch by the same options.  On a uniqueness
violation the resolver is invoked for diagnostics and a 409 is raised
unconditionally (the `@FIXME` comment at lines 493-498: no delete-and-retry
recovery). -/
def _update (st : Store) (m : Model) (data : Record) (whereFields : Option Record) :
    Except Err (List Record) × List StoreCall :=
  let data := if jsTruthy (getField data "id") then removeField data "id" else data
  match st.updateR data whereFields with
  | .error e =>
    if !e.uniq then (.error (.internal "Error"), [.update data whereFields])
    else
      let (_, t2) := _handleUniqueConstraintError st m e false
      (.error (.http 409 ("RestQL: " ++ m.name ++ " unique constraint error")),
        [StoreCall.update data whereFields] ++ t2)
  | .ok _ =>
    let rows := st.findAllScopeR whereFields
    (.ok rows, [.update data whereFields, .findAllScope whereFields])

/-- Embeds `_create` (middlewares.js:339): delete a truthy `id` from the
record, store create; on a uniqueness violation resolve the conflict and
update the conflicting row's identity with the merge of the resolved row's
values and the input (input fields taking precedence).  With the resolver
of line 311 always raising 409, the merge path is unreachable but retained
as the source writes it. -/
def _create (st : Store) (m : Model) (data : Record) (ignoreDuplicates : Bool) :
    Except Err Record × List StoreCall :=
  let data := if jsTruthy (getField data "id") then removeField data "id" else data
  match st.createR data with
  | .ok row => (.ok row, [.create data])
  | .error e =>
    if !e.uniq then (.error (.internal "Error"), [.create data])
    else
      match _handleUniqueConstraintError st m e ignoreDuplicates with
      | (.error err, t2) => (.error err, [StoreCall.create data] ++ t2)
      | (.ok (row, fields), t2) =>
        match _update st m (mergeAssign row data) (some fields) with
        | (.ok rows, t3) =>
          (.ok (rows.headD []), [StoreCall.create data] ++ t2 ++ t3)
        | (.error err, t3) => (.error err, [StoreCall.create data] ++ t2 ++ t3)

/-- The `forEach` of `_bulkCreate` (middlewares.js:387) computing one
identity predicate per record.  The source raises the 400 through
`this.throw`, but `_bulkCreate` is invoked with `this` undefined (strict
mode), so the call is a TypeError, modelled as an internal error. -/
def computeOrsB (m : Model) (data : List Record) : Except Err (List Record) :=
  data.mapM (fun r =>
    match _getInstanceValidIndexFields (_getUniqueIndexes m) r with
    | some w => Except.ok w
    | none => Except.error (Err.internal "TypeError: this is undefined"))

/-- The `while (true)` retry loop of `_bulkCreate` (middlewares.js:398),
with fuel bounding the recursion (each recursive step removes one pending
record, so `data.length` fuel suffices; the fuel-exhausted branch is
unreachable).  On a uniqueness violation the resolver is called; were it to
return, the violation is matched (loose `==` on every decoded field) to a
pending record, which is merged, queued as a conflict and removed, and the
loop retries; an unmatched violation raises 500. -/
def _bulkCreateLoop (st : Store) (m : Model) :
    Nat → List Record → List (Record × Record) → List StoreCall →
    Except Err (List (Record × Record)) × List StoreCall
  | fuel, data, conflicts, tr =>
    match st.bulkCreateR data none with
    | .ok _ => (.ok conflicts, tr ++ [.bulkCreate data none])
    | .error e =>
      let tr := tr ++ [StoreCall.bulkCreate data none]
      if !e.uniq then (.error (.internal "Error"), tr)
      else
        match _handleUniqueConstraintError st m e false with
        | (.error err, t2) => (.error err, tr ++ t2)
        | (.ok (row, fields), t2) =>
          let tr := tr ++ t2
          match data.findIdx? (fun r =>
              (recordKeys fields).all (fun k => jsLooseEq (getField fields k) (getField r k))) with
          | some i =>
            let merged := mergeAssign row (data.getD i [])
            match fuel with
            | 0 => (.error (.internal "fuel"), tr)
            | fuel + 1 =>
              _bulkCreateLoop st m fuel (data.eraseIdx i)
                (conflicts ++ [(merged, fields)]) tr
          | none => (.error (.http 500 "RestQL: bulkCreate unique index field error"), tr)

/-- Embeds `_bulkCreate` (middlewares.js:379): one identity per record (a
failure is a TypeError, see `computeOrsB`), the bounded retry loop, then a
flush of the queued conflict rows in one `bulkCreate` with
`updateOnDuplicate` over all model attributes (409 on violation), and a
re-fetch of all rows by the identity union ordered by ascending id.  No
batch-homogeneity validation is performed. -/
def _bulkCreate (st : Store) (m : Model) (data0 : List Record) :
    Except Err (List Record) × List StoreCall :=
  match computeOrsB m data0 with
  | .error e => (.error e, [])
  | .ok ors =>
    match _bulkCreateLoop st m data0.length data0 [] [] with
    | (.error e, tr) => (.error e, tr)
    | (.ok conflicts, tr) =>
      let afterFlush : Except Err Unit × List StoreCall :=
        if conflicts.isEmpty then (.ok (), tr)
        else
          let rows := conflicts.map (fun c => c.1)
          let upd := m.attributes.map (fun kv => kv.1)
          match st.bulkCreateR rows (some upd) with
          | .ok _ => (.ok (), tr ++ [.bulkCreate rows (some upd)])
          | .error e =>
            if e.uniq then
              (.error (.http 409 ("RestQL: " ++ m.name ++ " unique constraint error")),
                tr ++ [.bulkCreate rows (some upd)])
            else (.error (.internal "Error"), tr ++ [.bulkCreate rows (some upd)])
      match afterFlush with
      | (.error e, tr2) => (.error e, tr2)
      | (.ok _, tr2) =>
        let rows := st.findAllOrR (ors.map some) true
        (.ok rows, tr2 ++ [.findAllOr (ors.map some) true])

/-- The matching `forEach` of `_findExistingRows` (middlewares.js:542): each
predicate in input order is matched (strict `===` on every identity field
against the predicate's original record) against the returned rows not yet
consumed; a match moves the stored row to `existingRows` and splices it out
of the pool, otherwise the original record goes to `newRows`.
`Object.keys` of an undefined predicate is a JS TypeError. -/
def matchLoop :
    List (Option Record × Record) → List Record → List Record → List Record →
    Except Err (List Record × List Record)
  | [], _, ex, nw => .ok (ex, nw)
  | (none, _) :: _, _, _, _ => .error (.internal "TypeError: Object.keys of undefined")
  | (some fields, r) :: rest, rows, ex, nw =>
    match rows.findIdx? (fun row =>
        (recordKeys fields).all (fun k => jsStrictEq (getField row k) (getField r k))) with
    | some i => matchLoop rest (rows.eraseIdx i) (ex ++ [rows.getD i []]) nw
    | none => matchLoop rest rows ex (nw ++ [r])

/-- Embeds `_findExistingRows` (middlewares.js:506) on an array argument
(the `array` handler of the modelled `switchByType`): one identity predicate
per record, a single `findAll` over the `$or` of all predicates, then —
unless the returned row count equals the predicate count, in which case all
returned rows become `existingRows` directly — the consume-matching loop. -/
def _findExistingRows (st : Store) (m : Model) (data : List Record) :
    Except Err (List Record × List Record) × List StoreCall :=
  let uniqueIndexes := _getUniqueIndexes m
  let ors : List (Option Record × Record) :=
    data.map (fun r => (_getInstanceValidIndexFields uniqueIndexes r, r))
  let rows := st.findAllOrR (ors.map (fun o => o.1)) false
  let tr := [StoreCall.findAllOr (ors.map (fun o => o.1)) false]
  if rows.length = ors.length then
    (.ok (rows, []), tr)
  else
    match matchLoop ors rows [] [] with
    | .ok p => (.ok p, tr)
    | .error e => (.error e, tr)

/-- Embeds the exported `upsert` middleware (middlewares.js:776) on an
object body: stamp the not-deleted sentinel, compute the identity predicate;
when one exists run `_upsert` (201 when created, 200 otherwise), when none
exists fall back to `_create` with status 201. -/
def upsertMw (st : Store) (m : Model) (body : Record) :
    Except Err (Option Record × Nat) × List StoreCall :=
  let body := stampRecord m body
  match _getInstanceValidIndexFields (_getUniqueIndexes m) body with
  | some _ =>
    match _upsert st m body with
    | (.error e, tr) => (.error e, tr)
    | (.ok (created, data), tr) => (.ok (data, if created then 201 else 200), tr)
  | none =>
    match _create st m body false with
    | (.error e, tr) => (.error e, tr)
    | (.ok row, tr) => (.ok (some row, 201), tr)

/-!
Heap model for the association query rewriters.  `hasManyQueryGenerator`
and `belongsToManyQueryGenerator` (src/unnamed/part_000:355-423) manipulate
mutable JS objects, and the property claimed of them is about mutation (the
caller's base query is left untouched), so JS objects are given explicit
identity: a `JHeap` maps addresses to objects (string-keyed objects or
arrays), and `JV.ref` is an object reference.  `_.cloneDeep` is embedded
with explicit fuel; `okJ fuel h v` states the fuel explores the whole
(finite, acyclic) object graph of `v`.
-/

/-- A JS value in the heap model: a primitive or an object reference. -/
inductive JV where
  | null
  | undefined
  | bool (b : Bool)
  | num (n : Int)
  | str (s : String)
  | ref (a : Nat)
deriving DecidableEq, Repr

/-- A heap object: a string-keyed object or an array. -/
inductive JObj where
  | obj (fields : List (String × JV))
  | arr (elems : List JV)
deriving DecidableEq, Repr

/-- The heap: object `a` lives at index `a` of `objs`. -/
structure JHeap where
  objs : List JObj
deriving DecidableEq, Repr

def JHeap.len (h : JHeap) : Nat := h.objs.length

def JHeap.get (h : JHeap) (a : Nat) : Option JObj := h.objs.get? a

/-- Allocation of a fresh object at the next address. -/
def JHeap.alloc (h : JHeap) (o : JObj) : JHeap × Nat :=
  (⟨h.objs ++ [o]⟩, h.objs.length)

/-- In-place update of assoc-list fields, JS object write semantics. -/
def setAssocJ (fs : List (String × JV)) (k : String) (v : JV) : List (String × JV) :=
  if fs.any (fun kv => kv.1 = k) then
    fs.map (fun kv => if kv.1 = k then (k, v) else kv)
  else fs ++ [(k, v)]

/-- `o[k] = v` on the object at address `a`; a no-op on arrays, missing
addresses, or primitives (excluded by the runs considered). -/
def JHeap.setField (h : JHeap) (a : Nat) (k : String) (v : JV) : JHeap :=
  match h.get a with
  | some (.obj fs) => ⟨h.objs.set a (.obj (setAssocJ fs k v))⟩
  | _ => h

/-- `arr.push(v)` on the array at address `a`. -/
def JHeap.push (h : JHeap) (a : Nat) (v : JV) : JHeap :=
  match h.get a with
  | some (.arr es) => ⟨h.objs.set a (.arr (es ++ [v]))⟩
  | _ => h

/-- Property read `v[k]`: `undefined` on primitives, arrays and missing
keys (a read on `null`/`undefined` would be a JS TypeError; the claims'
runs never perform one whose result is used). -/
def hGetField (h : JHeap) (v : JV) (k : String) : JV :=
  match v with
  | .ref a =>
    match h.get a with
    | some (.obj fs) =>
      match fs.find? (fun kv => kv.1 = k) with
      | some kv => kv.2
      | none => .undefined
    | _ => .undefined
  | _ => .undefined

/-- JS truthiness on heap values: object references are truthy. -/
def jsTruthyJ : JV → Bool
  | .null => false
  | .undefined => false
  | .bool b => b
  | .num n => n != 0
  | .str s => s != ""
  | .ref _ => true

/-- Fuel sufficiency: `okJ f h v` holds when `f` bounds the depth of the
object graph reachable from `v` and every reference on the way resolves. -/
def okJ : Nat → JHeap → JV → Bool
  | _, _, .null => true
  | _, _, .undefined => true
  | _, _, .bool _ => true
  | _, _, .num _ => true
  | _, _, .str _ => true
  | 0, _, .ref _ => false
  | f + 1, h, .ref a =>
    match h.get a with
    | some (.obj fs) => fs.all (fun kv => okJ f h kv.2)
    | some (.arr es) => es.all (fun v => okJ f h v)
    | none => false

/-- Clones the field values of an object left to right with the given
per-value cloner, threading the heap. -/
def cloneFieldsWith (cl : JHeap → JV → JHeap × JV) :
    JHeap → List (String × JV) → JHeap × List (String × JV)
  | h, [] => (h, [])
  | h, kv :: rest =>
    let p := cl h kv.2
    let q := cloneFieldsWith cl p.1 rest
    (q.1, (kv.1, p.2) :: q.2)

/-- Clones the elements of an array left to right with the given per-value
cloner, threading the heap. -/
def cloneElemsWith (cl : JHeap → JV → JHeap × JV) :
    JHeap → List JV → JHeap × List JV
  | h, [] => (h, [])
  | h, v :: rest =>
    let p := cl h v
    let q := cloneElemsWith cl p.1 rest
    (q.1, p.2 :: q.2)

/-- Embeds `_.cloneDeep`: primitives are copied, objects are cloned
bottom-up into freshly allocated addresses.  With exhausted fuel a
reference is returned as-is (excluded by `okJ`). -/
def cloneJ : Nat → JHeap → JV → JHeap × JV
  | 0, h, v => (h, v)
  | f + 1, h, v =>
    match v with
    | .ref a =>
      match h.get a with
      | none => (h, .ref a)
      | some (.obj fs) =>
        let p := cloneFieldsWith (cloneJ f) h fs
        let q := p.1.alloc (.obj p.2)
        (q.1, .ref q.2)
      | some (.arr es) =>
        let p := cloneElemsWith (cloneJ f) h es
        let q := p.1.alloc (.arr p.2)
        (q.1, .ref q.2)
    | v => (h, v)

/-- `_.assign(target, src)`: writes each field of `src` onto the object
`target` references; a no-op on a non-reference target. -/
def assignFieldsJ (h : JHeap) (tgt : JV) (src : List (String × JV)) : JHeap :=
  match tgt with
  | .ref a => src.foldl (fun h kv => h.setField a kv.1 kv.2) h
  | _ => h

/-- Embeds `hasPluralAssociation` (src/unnamed/part_000:29) applied to
`query.include`: some element of the include array has a truthy
`association` whose `isMultiAssociation` is truthy.  A falsy include is
`[]`; a truthy non-array include would be a TypeError at `.some` and is
excluded by the runs considered. -/
def hasPluralAssociationJ (h : JHeap) (v : JV) : Bool :=
  match v with
  | .ref a =>
    match h.get a with
    | some (.arr es) =>
      es.any (fun e =>
        jsTruthyJ (hGetField h e "association") &&
        jsTruthyJ (hGetField h (hGetField h e "association") "isMultiAssociation"))
    | _ => false
  | _ => false

/-- The configuration of a plural association read by the query generators:
the closed-over `association.scope`, `foreignKey`, `through` (model
presence, scope) and `association.oneFromTarget` (an opaque value pushed
into the built include entry). -/
structure AssocConfig where
  scope : Option (List (String × JV))
  foreignKey : String
  throughModel : Bool
  throughScope : Option (List (String × JV))
  oneFromTarget : JV

/-- JS `v || fresh-object`: the value itself when truthy, otherwise a
reference to a freshly allocated `o` (the `query.where = query.where || {}`
and `query.include = query.include || []` idioms). -/
def jsOrAlloc (h : JHeap) (v : JV) (o : JObj) : JHeap × JV :=
  if jsTruthyJ v then (h, v)
  else
    let al := h.alloc o
    (al.1, .ref al.2)

/-- `v[k] = x` where `v` is an arbitrary JS value: a property write when
`v` references an object, a no-op otherwise. -/
def setFieldV (h : JHeap) (v : JV) (k : String) (x : JV) : JHeap :=
  match v with
  | .ref a => h.setField a k x
  | _ => h

/-- `v.push(x)` where `v` is an arbitrary JS value: an array push when `v`
references an array, a no-op otherwise. -/
def pushV (h : JHeap) (v : JV) (x : JV) : JHeap :=
  match v with
  | .ref a => h.push a x
  | _ => h

/-- The final statements shared by both generators
(src/unnamed/part_000:366-368 and 417-419): mark the clone `distinct` when
some included relation is itself to-many. -/
def distinctMark (h : JHeap) (qa : Nat) : JHeap :=
  if hasPluralAssociationJ h (hGetField h (.ref qa) "include") then
    h.setField qa "distinct" (.bool true)
  else h

/-- The body of `hasManyQueryGenerator` (src/unnamed/part_000:358-370)
applied to the cloned query object at `qa`: default `where` to `{}`, merge
`association.scope` into it, pin `foreignKey = id`, apply the distinct
rule. -/
def hasManyBody (cfg : AssocConfig) (h : JHeap) (qa : Nat) (id : JV) : JHeap × JV :=
  let pw := jsOrAlloc h (hGetField h (.ref qa) "where") (.obj [])
  let h1 := pw.1.setField qa "where" pw.2
  let h2 := match cfg.scope with
    | some sc => assignFieldsJ h1 pw.2 sc
    | none => h1
  let h3 := setFieldV h2 pw.2 cfg.foreignKey id
  (distinctMark h3 qa, .ref qa)

/-- Embeds `hasManyQueryGenerator` (src/unnamed/part_000:355): deep-clone
the base query and run the body on the clone (a non-object base query is
returned as cloned, where the JS would fault on property access). -/
def hasManyQueryGenerator (cfg : AssocConfig) (f : Nat) (h : JHeap) (q : JV) (id : JV) :
    JHeap × JV :=
  let p := cloneJ f h q
  match p.2 with
  | .ref qa => hasManyBody cfg p.1 qa id
  | _ => p

/-- `let scopeWhere; if (association.scope) scopeWhere = _.clone(...)`
(src/unnamed/part_000:378-382): a shallow clone of the association scope as
a fresh object, `undefined` when no scope is configured. -/
def btmScopeWhere (cfg : AssocConfig) (h : JHeap) : JHeap × JV :=
  match cfg.scope with
  | some sc =>
    let al := h.alloc (.obj sc)
    (al.1, .ref al.2)
  | none => (h, .undefined)

/-- `query.where = { $and: [scopeWhere, query.where] }`
(src/unnamed/part_000:384-388): allocate the array and wrapper object and
overwrite the clone's `where`. -/
def btmSetWhere (h : JHeap) (qa : Nat) (scopeWhereV : JV) : JHeap :=
  let oldW := hGetField h (.ref qa) "where"
  let arr1 := h.alloc (.arr [scopeWhereV, oldW])
  let obj1 := arr1.1.alloc (.obj [("$and", .ref arr1.2)])
  obj1.1.setField qa "where" (.ref obj1.2)

/-- `throughWhere` construction (src/unnamed/part_000:392-405): a fresh
object with `foreignKey = id`, merged with `through.scope`, AND-ed with the
clone's `through.where` when both `query.through` and its `where` are
truthy. -/
def btmThroughWhere (cfg : AssocConfig) (h : JHeap) (qa : Nat) (id : JV) : JHeap × JV :=
  let tw := h.alloc (.obj [])
  let h1 := tw.1.setField tw.2 cfg.foreignKey id
  let h2 := match cfg.throughScope with
    | some sc => assignFieldsJ h1 (.ref tw.2) sc
    | none => h1
  let qthrough := hGetField h2 (.ref qa) "through"
  let qtw := hGetField h2 qthrough "where"
  if jsTruthyJ qthrough && jsTruthyJ qtw then
    let arr2 := h2.alloc (.arr [.ref tw.2, qtw])
    let obj2 := arr2.1.alloc (.obj [("$and", .ref arr2.2)])
    (obj2.1, .ref obj2.2)
  else (h2, .ref tw.2)

/-- `query.include = query.include || []; query.include.push({...})`
(src/unnamed/part_000:407-413): push onto the clone's include array the
through-association entry carrying the clone's `joinTableAttributes` and
the built through-where. -/
def btmPushInclude (cfg : AssocConfig) (h : JHeap) (qa : Nat) (twv : JV) : JHeap :=
  let pinc := jsOrAlloc h (hGetField h (.ref qa) "include") (.arr [])
  let h1 := pinc.1.setField qa "include" pinc.2
  let joinAttrs := hGetField h1 (.ref qa) "joinTableAttributes"
  let entry := h1.alloc (.obj
    [("association", cfg.oneFromTarget), ("attributes", joinAttrs),
     ("require", .bool true), ("where", twv)])
  pushV entry.1 pinc.2 (.ref entry.2)

/-- The `if (through.model)` block (src/unnamed/part_000:390-415). -/
def btmThroughBlock (cfg : AssocConfig) (h : JHeap) (qa : Nat) (id : JV) : JHeap :=
  if cfg.throughModel then
    let p := btmThroughWhere cfg h qa id
    btmPushInclude cfg p.1 qa p.2
  else h

/-- The body of `belongsToManyQueryGenerator` (src/unnamed/part_000:376-421)
applied to the cloned query object at `qa`. -/
def belongsToManyBody (cfg : AssocConfig) (h : JHeap) (qa : Nat) (id : JV) : JHeap × JV :=
  let ps := btmScopeWhere cfg h
  let h1 := btmSetWhere ps.1 qa ps.2
  let h2 := btmThroughBlock cfg h1 qa id
  (distinctMark h2 qa, .ref qa)

/-- Embeds `belongsToManyQueryGenerator` (src/unnamed/part_000:374):
deep-clone the base query and run the body on the clone. -/
def belongsToManyQueryGenerator (cfg : AssocConfig) (f : Nat) (h : JHeap) (q : JV) (id : JV) :
    JHeap × JV :=
  let p := cloneJ f h q
  match p.2 with
  | .ref qa => belongsToManyBody cfg p.1 qa id
  | _ => p

/-! Frame predicates for the heap model. -/

/-- `h2` extends `h` by appended allocations only. -/
def HExt (h h2 : JHeap) : Prop :=
  ∃ t, h2.objs = h.objs ++ t

/-- The heaps agree on every address below `n`. -/
def agreeBelow (n : Nat) (h h2 : JHeap) : Prop :=
  ∀ a, a < n → h2.get a = h.get a

/-- Any address the value references lies in `[lo, hi)`. -/
def valInRange (lo hi : Nat) (v : JV) : Prop :=
  ∀ a, v = .ref a → lo ≤ a ∧ a < hi

/-- Every value held by the object references only `[lo, hi)`. -/
def objInRange (lo hi : Nat) : JObj → Prop
  | .obj fs => ∀ kv ∈ fs, valInRange lo hi kv.2
  | .arr es => ∀ v ∈ es, valInRange lo hi v

/-- The region of addresses `≥ n` is closed: its objects reference only
addresses `≥ n` (and in-heap). -/
def regionClosed (n : Nat) (h : JHeap) : Prop :=
  ∀ a o, n ≤ a → h.get a = some o → objInRange n h.len o

/-! Claim-side (specification-worded) definitions, for refinement
comparisons with the embedded code. -/

/-- Whether a value is date-like. -/
def dateLike : Value → Bool
  | .vDate _ => true
  | _ => false

/-- Temporal (timestamp) equality: two dates with the same timestamp. -/
def temporalEq : Value → Value → Bool
  | .vDate t1, .vDate t2 => t1 = t2
  | _, _ => false

/-- The spec's wording of the soft-delete test (section 4.2): true if the
row is absent; else compare the row's deletedAt value against the field's
declared default — temporal equality if the default is date-like,
structural equality otherwise; true when they differ. -/
def isDeletedSpec (m : Model) (col : String) (row : Option Record) : Bool :=
  match row with
  | none => true
  | some r =>
    let d := defaultDeletedValue m col
    let v := getField r col
    if dateLike d then !temporalEq d v else d ≠ v

/-- Consume-matching of identity predicates against returned rows, in input
order: a predicate matching some not-yet-consumed returned row (on every
identity field, strict equality against the predicate's original record)
claims that row for `existingRows` and removes it from the pool; otherwise
the original record goes to `newRows`. -/
def consumeMatch : List (Record × Record) → List Record → List Record × List Record
  | [], _ => ([], [])
  | (fields, r) :: rest, rows =>
    match rows.findIdx? (fun row =>
        (recordKeys fields).all (fun k => jsStrictEq (getField row k) (getField r k))) with
    | some i =>
      let res := consumeMatch rest (rows.eraseIdx i)
      ((rows.getD i []) :: res.1, res.2)
    | none =>
      let res := consumeMatch rest rows
      (res.1, r :: res.2)

/-! Concrete instances used by counterexamples and witnesses. -/

/-- A store whose every call succeeds blandly. -/
def okStore : Store where
  createR := fun r => .ok r
  upsertR := fun _ => .ok true
  bulkCreateR := fun _ _ => .ok ()
  updateR := fun _ _ => .ok ()
  findR := fun w _ => some w
  findAllOrR := fun _ _ => []
  findAllScopeR := fun _ => []

/-- A non-paranoid model with a single unique index on `uniq`. -/
def modelU : Model where
  name := "user"
  attributes := [("id", {}), ("uniq", {}), ("name", {})]
  primaryKeys := []
  indexes := [{ name := "uniq", unique := true, fields := ["uniq"] }]
  uniqueKeys := []
  paranoid := false
  deletedAt := none

/-- A paranoid model with primary key `id`, a unique index on `email` and a
`deletedAt` column defaulting to `null`. -/
def modelP : Model where
  name := "user"
  attributes := [("id", {}), ("email", {}), ("deletedAt", { defaultValue := .vNull })]
  primaryKeys := ["id"]
  indexes := [{ name := "email", unique := true, fields := ["email"] }]
  uniqueKeys := []
  paranoid := true
  deletedAt := some "deletedAt"

/-- A paranoid model whose `deletedAt` attribute declares no default
value. -/
def modelQ : Model where
  name := "note"
  attributes := [("id", {}), ("uniq", {}), ("deletedAt", {})]
  primaryKeys := ["id"]
  indexes := [{ name := "uniq", unique := true, fields := ["uniq"] }]
  uniqueKeys := []
  paranoid := true
  deletedAt := some "deletedAt"

/-- A decodable uniqueness violation on `email`. -/
def errEmail : StoreErr where
  uniq := true
  fields := some [("email", .vStr "x@x.com")]

/-- A store in which the soft-delete-inclusive lookup finds a soft-deleted
row for any identity, while the paranoid lookup misses. -/
def storeSoftDeleted : Store :=
  { okStore with findR := fun w paranoid =>
      if paranoid then none else some (w ++ [("deletedAt", .vDate 5)]) }

/-- A heterogeneous two-record batch (differing field-name sets), each
record carrying a full unique identity. -/
def hetBatch : List Record :=
  [[("uniq", .vStr "a")], [("uniq", .vStr "b"), ("extra", .vInt 1)]]

/-- A record with a client-supplied `id` alongside its unique field. -/
def recWithId : Record := [("id", .vInt 7), ("uniq", .vStr "a")]

/-- A record carrying no field of any unique index of `modelU`. -/
def recNoIdentity : Record := [("name", .vStr "A")]

/-- A store whose first bulk insert of a two-record batch reports a
uniqueness violation on `uniq` = "a", and accepts everything else. -/
def storeConflictA : Store :=
  { okStore with bulkCreateR := fun rs _ =>
      (if rs.length = 2 then
        Except.error ⟨true, some [("uniq", .vStr "a")]⟩
      else Except.ok ()) }

/-- The stored row for `uniq` = "a". -/
def rowA : Record := [("id", .vInt 1), ("uniq", .vStr "a")]

/-- Input records with identities "a" and "b". -/
def recA : Record := [("uniq", .vStr "a")]
def recB : Record := [("uniq", .vStr "b")]

/-- A store whose OR lookup returns exactly the stored row for "a" whenever
some predicate asks for it (only "a" pre-exists). -/
def storeOnlyA : Store :=
  { okStore with findAllOrR := fun ors _ =>
      if ors.contains (some [("uniq", .vStr "a")]) then [rowA] else [] }

/-- A concrete base-query heap for the rewriter witness: the query at
address 0 has a `where` filter, an include list with one to-many
association, an attribute projection, and a through-where. -/
def heapW : JHeap :=
  ⟨[.obj [("where", .ref 1), ("include", .ref 2), ("attributes", .ref 3),
      ("through", .ref 4)],
    .obj [("name", .str "x")],
    .arr [.ref 5],
    .arr [.str "id"],
    .obj [("where", .ref 6)],
    .obj [("association", .ref 7)],
    .obj [("active", .bool true)],
    .obj [("isMultiAssociation", .bool true)]]⟩

/-- A hasMany association configuration for the witness. -/
def cfgHasMany : AssocConfig where
  scope := some [("kind", .str "tag")]
  foreignKey := "user_id"
  throughModel := false
  throughScope := none
  oneFromTarget := .null

/-- A belongsToMany association configuration (with a through model) for
the witness. -/
def cfgBelongsToMany : AssocConfig where
  scope := some [("kind", .str "tag")]
  foreignKey := "user_id"
  throughModel := true
  throughScope := some [("t", .num 1)]
  oneFromTarget := .str "users"

/-! ## Theorems -/

/-- C9: `_bulkUpsert` applied to an empty batch returns the empty list and
issues no store call at all — no homogeneity validation, no identity
computation, no bulk write, no re-fetch (middlewares.js:141). -/
theorem c9_bulkUpsert_empty_batch (st : Store) (m : Model) :
    _bulkUpsert st m [] = (.ok [], []) := rfl

/-- C1: the conflict resolver `_handleUniqueConstraintError` never takes
the resolution path.  At a paranoid model with a decodable violation whose
offending row is soft-deleted and with `ignoreDuplicates` set — a case the
claim requires to succeed with `{row, identity}` — the code raises 409
without issuing a single store call, because the stray semicolon at
middlewares.js:311 makes the `ctx.throw` at line 312 unconditional.  The
second and third conjuncts show the violation was decodable and the row the
resolver would have found is soft-deleted. -/
theorem c1_resolver_always_conflicts :
    _handleUniqueConstraintError storeSoftDeleted modelP errEmail true =
      (.error (.http 409 "RestQL: user unique constraint error"), []) ∧
    _getUniqueConstraintErrorFields modelP errEmail = some [("email", .vStr "x@x.com")] ∧
    isDeleted modelP (storeSoftDeleted.findR [("email", .vStr "x@x.com")] false) = true := by
  decide

/-- C5: a conflict iteration of the `_bulkCreate` retry loop neither
removes the offending record nor raises 500 on a mismatch — it aborts with
409 on the very first violation, because the resolver of
middlewares.js:311 always throws.  Here the violation is decodable and
loosely matches the first pending record, so the claim requires the
iteration to remove exactly that record and retry; instead the whole
operation errors with 409 after the single store call. -/
theorem c5_conflict_iteration_aborts :
    _bulkCreate storeConflictA modelU [recA, recB] =
      (.error (.http 409 "RestQL: user unique constraint error"),
        [.bulkCreate [recA, recB] none]) ∧
    _getUniqueConstraintErrorFields modelU ⟨true, some [("uniq", .vStr "a")]⟩ =
      some [("uniq", .vStr "a")] ∧
    (recordKeys [("uniq", .vStr "a")]).all
      (fun k => jsLooseEq (getField [("uniq", .vStr "a")] k) (getField recA k)) = true := by
  decide

/-- C2 counterexample: a heterogeneous batch (differing field-name sets)
does not make `_bulkCreate` fail with a ValidationError before mutating the
store — it issues the bulk insert and succeeds. -/
theorem c2_counterexample :
    homogeneous hetBatch = false ∧
    _bulkCreate okStore modelU hetBatch =
      (.ok [], [.bulkCreate hetBatch none,
        .findAllOr [some [("uniq", .vStr "a")], some [("uniq", .vStr "b")]] true]) ∧
    (StoreCall.bulkCreate hetBatch none).isMutating = true := by
  decide

/-- C3 counterexample: `_upsert` issues the store upsert with the
client-supplied `id` still in the record — the identity field is not
removed before the write. -/
theorem c3_counterexample :
    (_upsert okStore modelU recWithId).2 =
      [.upsert recWithId, .find [("uniq", .vStr "a")] true] ∧
    getField recWithId "id" = .vInt 7 := by
  decide

/-- C4 counterexample: on a record matching no unique index, the exported
`upsert` operation does not fail with 400 and zero writes — it falls back
to `_create`, issues the insert, and answers 201. -/
theorem c4_counterexample :
    upsertMw okStore modelU recNoIdentity =
      (.ok (some recNoIdentity, 201), [.create recNoIdentity]) ∧
    (StoreCall.create recNoIdentity).isMutating = true := by
  decide

/-- C6 counterexample: with duplicate input identities, the second
predicate's identity fields match the returned row `rowA` (second
conjunct), yet its record is classified into `newRows` — the matching
consumes rows, contradicting the claimed per-predicate classification. -/
theorem c6_counterexample :
    _findExistingRows storeOnlyA modelU [recA, recA] =
      (.ok ([rowA], [recA]),
        [.findAllOr [some [("uniq", .vStr "a")], some [("uniq", .vStr "a")]] false]) ∧
    (recordKeys [("uniq", .vStr "a")]).all
      (fun k => jsStrictEq (getField rowA k) (getField recA k)) = true :=
  ⟨rfl, rfl⟩

/-- C8: on a paranoid model with a configured deletedAt field (declared as
an attribute), `isDeleted` agrees with the spec's reading: true for an
absent row, otherwise the row's deletedAt compared against the declared
default — temporal equality when the default is date-like, structural
equality otherwise — true exactly when they differ. -/
theorem c8_isDeleted_matches_spec (m : Model) (col : String) (row : Option Record)
    (hp : m.paranoid = true) (hc : m.deletedAt = some col)
    (_ha : (attrOf m col).isSome) :
    isDeleted m row = isDeletedSpec m col row := by
  cases row with
  | none => simp [isDeleted, isDeletedSpec, hc, hp]
  | some r =>
    simp only [isDeleted, isDeletedSpec, hc, hp]
    cases hdv : defaultDeletedValue m col <;>
      cases hv : getField r col <;>
      simp [dateLike, temporalEq]

/-- Witness for C8 at the paranoid model `modelP` and a live row. -/
theorem c8_witness :
    modelP.paranoid = true ∧ modelP.deletedAt = some "deletedAt" ∧
    (attrOf modelP "deletedAt").isSome = true ∧
    isDeleted modelP (some [("deletedAt", .vDate 3)]) =
      isDeletedSpec modelP "deletedAt" (some [("deletedAt", .vDate 3)]) :=
  ⟨rfl, rfl, by decide,
    c8_isDeleted_matches_spec modelP "deletedAt" (some [("deletedAt", .vDate 3)])
      rfl rfl (by decide)⟩

/-- C10: on a paranoid model whose deletedAt attribute declares no default,
the sentinel is `null`: `setDefaultDeletedValue` overwrites the deletedAt
field with `null` on a single record and on every record of a batch, and
`isDeleted` on a present row is true exactly when the row's deletedAt value
is not `null`. -/
theorem c10_null_sentinel (m : Model) (col : String) (a : Attribute)
    (hp : m.paranoid = true) (hc : m.deletedAt = some col)
    (ha : attrOf m col = some a) (hd : a.defaultValue = .vUndefined) :
    (∀ r, stampRecord m r = setField r col .vNull) ∧
    (∀ rs, stampBatch m rs = rs.map (fun r => setField r col .vNull)) ∧
    (∀ r, isDeleted m (some r) = decide (getField r col ≠ .vNull)) := by
  have hdv : defaultDeletedValue m col = .vNull := by
    simp [defaultDeletedValue, ha, hd]
  refine ⟨?_, ?_, ?_⟩
  · intro r
    simp [stampRecord, hc, hp, hdv]
  · intro rs
    simp [stampBatch, hc, hp, hdv]
  · intro r
    simp only [isDeleted, hc, hp, hdv]
    cases hv : getField r col <;> simp

/-- Witness for C10 at `modelQ`, whose deletedAt attribute has no declared
default. -/
theorem c10_witness :
    modelQ.paranoid = true ∧ modelQ.deletedAt = some "deletedAt" ∧
    attrOf modelQ "deletedAt" = some {} ∧ Attribute.defaultValue {} = .vUndefined ∧
    stampRecord modelQ [("uniq", .vStr "a")] =
      setField [("uniq", .vStr "a")] "deletedAt" .vNull ∧
    isDeleted modelQ (some [("deletedAt", .vDate 9)]) =
      decide (getField [("deletedAt", .vDate 9)] "deletedAt" ≠ .vNull) :=
  ⟨rfl, rfl, by decide, rfl,
    (c10_null_sentinel modelQ "deletedAt" {} rfl rfl (by decide) rfl).1 [("uniq", .vStr "a")],
    (c10_null_sentinel modelQ "deletedAt" {} rfl rfl (by decide) rfl).2.2 [("deletedAt", .vDate 9)]⟩

/-- The retry loop of `_bulkCreate` always issues the bulk insert of the
current pending batch as its first store call, whatever the store answers
(the conflict resolver itself issues no call before raising). -/
theorem bulkCreateLoop_trace (st : Store) (m : Model) (fuel : Nat) (data : List Record)
    (conflicts : List (Record × Record)) (tr : List StoreCall) :
    ∃ rest, (_bulkCreateLoop st m fuel data conflicts tr).2 =
      tr ++ StoreCall.bulkCreate data none :: rest := by
  unfold _bulkCreateLoop
  cases h : st.bulkCreateR data none with
  | ok _ => exact ⟨[], by simp⟩
  | error e =>
    cases hu : e.uniq with
    | false => exact ⟨[], by simp [hu]⟩
    | true =>
      simp only [hu, _handleUniqueConstraintError, Bool.not_true]
      exact ⟨[], by simp⟩

/-- `_bulkCreate` issues the bulk insert of the full input batch as its
first store call whenever every record yields an identity predicate — no
validation of batch homogeneity (or anything else) precedes the
mutation. -/
theorem bulkCreate_first_call (st : Store) (m : Model) (data : List Record)
    (ors : List Record) (hors : computeOrsB m data = .ok ors) :
    ∃ rest, (_bulkCreate st m data).2 = StoreCall.bulkCreate data none :: rest := by
  unfold _bulkCreate
  rw [hors]
  obtain ⟨rest0, hloop⟩ := bulkCreateLoop_trace st m data.length data [] []
  rcases hres : _bulkCreateLoop st m data.length data [] [] with ⟨res, tr⟩
  rw [hres] at hloop
  simp only [List.nil_append] at hloop
  cases res with
  | error e => exact ⟨rest0, by simp [hloop]⟩
  | ok conflicts =>
    by_cases hce : conflicts.isEmpty
    · exact ⟨rest0 ++ [.findAllOr (ors.map some) true], by simp [hce, hloop]⟩
    · cases hbc : st.bulkCreateR (conflicts.map (fun c => c.1)) (some (m.attributes.map (fun kv => kv.1))) with
      | ok _ =>
        refine ⟨rest0 ++ [.bulkCreate (conflicts.map (fun c => c.1)) (some (m.attributes.map (fun kv => kv.1))),
          .findAllOr (ors.map some) true], ?_⟩
        simp [hce, hbc, hloop]
      | error e =>
        cases hu : e.uniq with
        | true =>
          refine ⟨rest0 ++ [.bulkCreate (conflicts.map (fun c => c.1)) (some (m.attributes.map (fun kv => kv.1)))], ?_⟩
          simp [hce, hbc, hu, hloop]
        | false =>
          refine ⟨rest0 ++ [.bulkCreate (conflicts.map (fun c => c.1)) (some (m.attributes.map (fun kv => kv.1)))], ?_⟩
          simp [hce, hbc, hu, hloop]

/-- A heterogeneous batch makes `_bulkUpsert` fail with the 400 validation
error before issuing any store call. -/
theorem bulkUpsert_heterogeneous (st : Store) (m : Model) (data : List Record)
    (h : homogeneous data = false) :
    _bulkUpsert st m data =
      (.error (.http 400 "RestQL: array elements have different attributes"), []) := by
  cases data with
  | nil => simp [homogeneous] at h
  | cons d0 rest =>
    unfold _bulkUpsert
    rw [h]
    rfl

/-- C2 (amended): only `_bulkUpsert` validates batch homogeneity — a
heterogeneous batch makes it fail 400 with zero store calls — while
`_bulkCreate` performs no such validation: whenever its per-record identity
computation succeeds, its very first store call is the bulk insert of the
unvalidated batch. -/
theorem c2_homogeneity_validation :
    (∀ (st : Store) (m : Model) (data : List Record), homogeneous data = false →
      _bulkUpsert st m data =
        (.error (.http 400 "RestQL: array elements have different attributes"), [])) ∧
    (∀ (st : Store) (m : Model) (data : List Record) (ors : List Record),
      computeOrsB m data = .ok ors →
      ∃ rest, (_bulkCreate st m data).2 = StoreCall.bulkCreate data none :: rest) :=
  ⟨bulkUpsert_heterogeneous, bulkCreate_first_call⟩

/-- Witness for C2 at the concrete heterogeneous batch `hetBatch`. -/
theorem c2_witness :
    homogeneous hetBatch = false ∧
    _bulkUpsert okStore modelU hetBatch =
      (.error (.http 400 "RestQL: array elements have different attributes"), []) ∧
    computeOrsB modelU hetBatch = .ok [[("uniq", .vStr "a")], [("uniq", .vStr "b")]] ∧
    ∃ rest, (_bulkCreate okStore modelU hetBatch).2 =
      StoreCall.bulkCreate hetBatch none :: rest :=
  ⟨by decide, c2_homogeneity_validation.1 okStore modelU hetBatch (by decide),
    by decide,
    c2_homogeneity_validation.2 okStore modelU hetBatch
      [[("uniq", .vStr "a")], [("uniq", .vStr "b")]] (by decide)⟩

/-- `_create` deletes a truthy `id` from the record before its store
insert. -/
theorem create_strips_truthy_id (st : Store) (m : Model) (data : Record) (ig : Bool)
    (h : jsTruthy (getField data "id") = true) :
    ∃ rest, (_create st m data ig).2 = StoreCall.create (removeField data "id") :: rest := by
  unfold _create
  rw [h]
  simp only [if_true]
  cases hc : st.createR (removeField data "id") with
  | ok row => exact ⟨[], rfl⟩
  | error e =>
    cases hu : e.uniq with
    | false => exact ⟨[], by simp [hu]⟩
    | true =>
      simp only [hu, _handleUniqueConstraintError, Bool.not_true]
      exact ⟨[], by simp⟩

/-- `_update` deletes a truthy `id` from the patch before its store
update. -/
theorem update_strips_truthy_id (st : Store) (m : Model) (data : Record)
    (w : Option Record) (h : jsTruthy (getField data "id") = true) :
    ∃ rest, (_update st m data w).2 = StoreCall.update (removeField data "id") w :: rest := by
  unfold _update
  rw [h]
  simp only [if_true]
  cases hc : st.updateR (removeField data "id") w with
  | ok _ => exact ⟨[.findAllScope w], rfl⟩
  | error e =>
    cases hu : e.uniq with
    | false => exact ⟨[], by simp [hu]⟩
    | true =>
      simp only [hu, _handleUniqueConstraintError, Bool.not_true]
      exact ⟨[], by simp⟩

/-- `_upsert` passes its record to the store upsert unchanged (no identity
stripping) whenever an identity predicate exists. -/
theorem upsert_record_unchanged (st : Store) (m : Model) (data : Record) (w : Record)
    (h : _getInstanceValidIndexFields (_getUniqueIndexes m) data = some w) :
    ∃ rest, (_upsert st m data).2 = StoreCall.upsert data :: rest := by
  unfold _upsert
  simp only [h]
  cases hc : st.upsertR data with
  | error e =>
    cases hu : e.uniq with
    | false => exact ⟨[], by simp [hu]⟩
    | true => exact ⟨[], by simp [hu]⟩
  | ok created =>
    cases hf : st.findR w true with
    | some d =>
      by_cases hd : isDeleted m (some d)
      · exact ⟨[.find w true, .restore w], by simp [hd]⟩
      · exact ⟨[.find w true], by simp [hd]⟩
    | none =>
      cases hf2 : st.findR w false with
      | some d =>
        by_cases hd : isDeleted m (some d)
        · exact ⟨[.find w true, .find w false, .restore w], by simp [hd]⟩
        · exact ⟨[.find w true, .find w false], by simp [hd]⟩
      | none =>
        by_cases hd : isDeleted m (none : Option Record)
        · exact ⟨[.find w true, .find w false], by simp [hd]⟩
        · exact ⟨[.find w true, .find w false], by simp [hd]⟩

/-- `_bulkUpsert` passes the records to the store bulk insert unchanged,
excluding `id` only from the `updateOnDuplicate` field list. -/
theorem bulkUpsert_excludes_id_from_updates (st : Store) (m : Model)
    (d0 : Record) (rest0 : List Record) (ors : List Record)
    (hh : homogeneous (d0 :: rest0) = true)
    (ho : computeOrs m (d0 :: rest0) = .ok ors) :
    ((recordKeys d0).filter (fun k => k ≠ "id")).contains "id" = false ∧
    ∃ rest, (_bulkUpsert st m (d0 :: rest0)).2 =
      StoreCall.bulkCreate (d0 :: rest0)
        (some ((recordKeys d0).filter (fun k => k ≠ "id"))) :: rest := by
  constructor
  · simp [List.contains_eq_any_beq, List.any_filter]
  · unfold _bulkUpsert
    rw [hh, ho]
    simp only [Bool.not_true, Bool.false_eq_true, if_false]
    cases hc : st.bulkCreateR (d0 :: rest0) (some ((recordKeys d0).filter (fun k => k ≠ "id"))) with
    | ok _ => exact ⟨[.findAllOr (ors.map some) true], rfl⟩
    | error e =>
      cases hu : e.uniq with
      | false => exact ⟨[], by simp [hu]⟩
      | true => exact ⟨[], by simp [hu]⟩

/-- C3 (amended): identity stripping is uneven across the write
operations.  `_create` and `_update` delete the `id` field from the input
(only when truthy) before their store write; `_upsert` and `_bulkCreate`
issue their writes with the input records unchanged, a client-supplied
identity included; `_bulkUpsert` writes the records unchanged and only
excludes `id` from the `updateOnDuplicate` field list. -/
theorem c3_identity_stripping :
    (∀ (st : Store) (m : Model) (data : Record) (ig : Bool),
      jsTruthy (getField data "id") = true →
      ∃ rest, (_create st m data ig).2 = StoreCall.create (removeField data "id") :: rest) ∧
    (∀ (st : Store) (m : Model) (data : Record) (w : Option Record),
      jsTruthy (getField data "id") = true →
      ∃ rest, (_update st m data w).2 = StoreCall.update (removeField data "id") w :: rest) ∧
    (∀ (st : Store) (m : Model) (data : Record) (w : Record),
      _getInstanceValidIndexFields (_getUniqueIndexes m) data = some w →
      ∃ rest, (_upsert st m data).2 = StoreCall.upsert data :: rest) ∧
    (∀ (st : Store) (m : Model) (data : List Record) (ors : List Record),
      computeOrsB m data = .ok ors →
      ∃ rest, (_bulkCreate st m data).2 = StoreCall.bulkCreate data none :: rest) ∧
    (∀ (st : Store) (m : Model) (d0 : Record) (rest0 : List Record) (ors : List Record),
      homogeneous (d0 :: rest0) = true → computeOrs m (d0 :: rest0) = .ok ors →
      ((recordKeys d0).filter (fun k => k ≠ "id")).contains "id" = false ∧
      ∃ rest, (_bulkUpsert st m (d0 :: rest0)).2 =
        StoreCall.bulkCreate (d0 :: rest0)
          (some ((recordKeys d0).filter (fun k => k ≠ "id"))) :: rest) :=
  ⟨create_strips_truthy_id, update_strips_truthy_id, upsert_record_unchanged,
    bulkCreate_first_call,
    fun st m d0 rest0 ors hh ho => bulkUpsert_excludes_id_from_updates st m d0 rest0 ors hh ho⟩

/-- Witness for C3 at the record `recWithId` carrying `id = 7`. -/
theorem c3_witness :
    jsTruthy (getField recWithId "id") = true ∧
    (∃ rest, (_create okStore modelU recWithId false).2 =
      StoreCall.create (removeField recWithId "id") :: rest) ∧
    (∃ rest, (_update okStore modelU recWithId none).2 =
      StoreCall.update (removeField recWithId "id") none :: rest) ∧
    (∃ rest, (_upsert okStore modelU recWithId).2 = StoreCall.upsert recWithId :: rest) ∧
    (∃ rest, (_bulkCreate okStore modelU [recWithId]).2 =
      StoreCall.bulkCreate [recWithId] none :: rest) ∧
    ((recordKeys recWithId).filter (fun k => k ≠ "id")).contains "id" = false ∧
    ∃ rest, (_bulkUpsert okStore modelU [recWithId]).2 =
      StoreCall.bulkCreate [recWithId]
        (some ((recordKeys recWithId).filter (fun k => k ≠ "id"))) :: rest :=
  ⟨by decide,
    c3_identity_stripping.1 okStore modelU recWithId false (by decide),
    c3_identity_stripping.2.1 okStore modelU recWithId none (by decide),
    c3_identity_stripping.2.2.1 okStore modelU recWithId [("uniq", .vStr "a")] (by decide),
    c3_identity_stripping.2.2.2.1 okStore modelU [recWithId] [[("uniq", .vStr "a")]] (by decide),
    (c3_identity_stripping.2.2.2.2 okStore modelU recWithId [] [[("uniq", .vStr "a")]]
      (by decide) (by decide)).1,
    (c3_identity_stripping.2.2.2.2 okStore modelU recWithId [] [[("uniq", .vStr "a")]]
      (by decide) (by decide)).2⟩

/-- C4 (amended): the internal `_upsert` does fail with the 400 "no
identity" error and zero store calls when no unique index fully matches the
record; but the exported `upsert` operation never reaches that branch — it
tests identity selectability first and, when none, falls back to `_create`
(sharing its exact call trace) and answers 201 on success. -/
theorem c4_no_identity_fallback :
    (∀ (st : Store) (m : Model) (data : Record),
      _getInstanceValidIndexFields (_getUniqueIndexes m) data = none →
      _upsert st m data =
        (.error (.http 400 "RestQL: unique index fields cannot be found"), [])) ∧
    (∀ (st : Store) (m : Model) (body : Record),
      _getInstanceValidIndexFields (_getUniqueIndexes m) (stampRecord m body) = none →
      (upsertMw st m body).2 = (_create st m (stampRecord m body) false).2 ∧
      (∀ row tr, _create st m (stampRecord m body) false = (.ok row, tr) →
        upsertMw st m body = (.ok (some row, 201), tr))) := by
  constructor
  · intro st m data h
    unfold _upsert
    simp only [h]
  · intro st m body h
    unfold upsertMw
    simp only [h]
    rcases hc : _create st m (stampRecord m body) false with ⟨res, tr⟩
    cases res with
    | error e =>
      refine ⟨rfl, ?_⟩
      intro row tr2 he
      simp at he
    | ok row =>
      refine ⟨rfl, ?_⟩
      intro row2 tr2 he
      simp only [Prod.mk.injEq, Except.ok.injEq] at he
      obtain ⟨h1, h2⟩ := he
      subst h1
      subst h2
      rfl

/-- Witness for C4 at the identity-less record `recNoIdentity`. -/
theorem c4_witness :
    _getInstanceValidIndexFields (_getUniqueIndexes modelU) recNoIdentity = none ∧
    _upsert okStore modelU recNoIdentity =
      (.error (.http 400 "RestQL: unique index fields cannot be found"), []) ∧
    _getInstanceValidIndexFields (_getUniqueIndexes modelU) (stampRecord modelU recNoIdentity) = none ∧
    upsertMw okStore modelU recNoIdentity =
      (.ok (some recNoIdentity, 201), [.create recNoIdentity]) :=
  ⟨by decide,
    c4_no_identity_fallback.1 okStore modelU recNoIdentity (by decide),
    by decide,
    (c4_no_identity_fallback.2 okStore modelU recNoIdentity (by decide)).2
      recNoIdentity [.create recNoIdentity] (by decide)⟩

/-- The matching loop of `_findExistingRows` equals consume-matching, with
the accumulators appended in front. -/
theorem matchLoop_eq_consumeMatch (ors : List (Option Record × Record))
    (hsome : ∀ p ∈ ors, p.1.isSome = true) :
    ∀ rows ex nw, matchLoop ors rows ex nw =
      .ok (ex ++ (consumeMatch (ors.map (fun p => (p.1.getD [], p.2))) rows).1,
           nw ++ (consumeMatch (ors.map (fun p => (p.1.getD [], p.2))) rows).2) := by
  induction ors with
  | nil => intro rows ex nw; simp [matchLoop, consumeMatch]
  | cons p rest ih =>
    intro rows ex nw
    rcases p with ⟨of, r⟩
    cases of with
    | none =>
      have := hsome (none, r) (List.mem_cons_self _ _)
      simp at this
    | some fields =>
      simp only [matchLoop, List.map_cons, Option.getD_some, consumeMatch]
      have ih2 := ih (fun p hp => hsome p (List.mem_cons_of_mem _ hp))
      cases hidx : rows.findIdx? (fun row =>
          (recordKeys fields).all fun k => jsStrictEq (getField row k) (getField r k)) with
      | some i => simp [ih2]
      | none => simp [ih2]

/-- C6 (amended): `_findExistingRows` classifies by consume-matching —
unless the returned row count equals the predicate count, in which case all
returned rows become `existingRows` directly — each predicate in input
order claiming (and consuming) the first remaining returned row matching
every identity field, unmatched predicates contributing their original
records to `newRows`; and in particular the claim's concrete instance
holds: for inputs "a" and "b" where only "a" pre-exists, the result is
`existingRows = [storedRowForA]`, `newRows = [{uniq:"b"}]`. -/
theorem c6_partition :
    (∀ (st : Store) (m : Model) (data : List Record),
      (∀ r ∈ data, (_getInstanceValidIndexFields (_getUniqueIndexes m) r).isSome = true) →
      _findExistingRows st m data =
        (.ok
          (if (st.findAllOrR (data.map (fun r => _getInstanceValidIndexFields (_getUniqueIndexes m) r)) false).length = data.length then
            (st.findAllOrR (data.map (fun r => _getInstanceValidIndexFields (_getUniqueIndexes m) r)) false, [])
          else
            consumeMatch
              (data.map (fun r => ((_getInstanceValidIndexFields (_getUniqueIndexes m) r).getD [], r)))
              (st.findAllOrR (data.map (fun r => _getInstanceValidIndexFields (_getUniqueIndexes m) r)) false)),
          [.findAllOr (data.map (fun r => _getInstanceValidIndexFields (_getUniqueIndexes m) r)) false])) ∧
    _findExistingRows storeOnlyA modelU [recA, recB] =
      (.ok ([rowA], [recB]),
        [.findAllOr [some [("uniq", .vStr "a")], some [("uniq", .vStr "b")]] false]) := by
  constructor
  · intro st m data hsome
    unfold _findExistingRows
    have hmap1 : (data.map (fun r => (_getInstanceValidIndexFields (_getUniqueIndexes m) r, r))).map
        (fun o => o.1) = data.map (fun r => _getInstanceValidIndexFields (_getUniqueIndexes m) r) := by
      simp [List.map_map]
    have hlen : (data.map (fun r => (_getInstanceValidIndexFields (_getUniqueIndexes m) r, r))).length
        = data.length := by simp
    simp only [hmap1, hlen]
    by_cases hl : (st.findAllOrR (data.map (fun r => _getInstanceValidIndexFields (_getUniqueIndexes m) r)) false).length = data.length
    · simp [hl]
    · rw [if_neg hl, if_neg hl]
      rw [matchLoop_eq_consumeMatch _ ?_ _ [] []]
      · simp [List.map_map, Function.comp_def]
      · intro p hp
        simp only [List.mem_map] at hp
        obtain ⟨r, hr, hpr⟩ := hp
        rw [← hpr]
        exact hsome r hr
  · rfl

/-- Witness for C6, applying the general classification at input order
"b" then "a" with only "a" pre-existing. -/
theorem c6_witness :
    _findExistingRows storeOnlyA modelU [recB, recA] =
      (.ok ([rowA], [recB]),
        [.findAllOr [some [("uniq", .vStr "b")], some [("uniq", .vStr "a")]] false]) :=
  c6_partition.1 storeOnlyA modelU [recB, recA] (by decide)

/-! Heap lemmas for the association query rewriters. -/

theorem JHeap.get_some_lt {h : JHeap} {a : Nat} {o : JObj} (hg : h.get a = some o) :
    a < h.len := by
  by_contra hn
  rw [JHeap.get, List.get?_eq_none.2 (Nat.le_of_not_lt hn)] at hg
  cases hg

theorem JHeap.len_alloc (h : JHeap) (o : JObj) : (h.alloc o).1.len = h.len + 1 := by
  simp [JHeap.alloc, JHeap.len]

theorem JHeap.get_alloc_lt {h : JHeap} {o : JObj} {a : Nat} (ha : a < h.len) :
    (h.alloc o).1.get a = h.get a := by
  simp only [JHeap.alloc, JHeap.get]
  exact List.get?_append ha

theorem JHeap.get_alloc_self (h : JHeap) (o : JObj) :
    (h.alloc o).1.get (h.alloc o).2 = some o := by
  simp [JHeap.alloc, JHeap.get]

theorem JHeap.len_setField (h : JHeap) (a : Nat) (k : String) (v : JV) :
    (h.setField a k v).len = h.len := by
  unfold JHeap.setField
  cases hg : h.get a with
  | none => rfl
  | some o =>
    cases o with
    | obj fs => simp [JHeap.len]
    | arr es => rfl

theorem JHeap.get_setField_ne {h : JHeap} {a : Nat} {k : String} {v : JV} {b : Nat}
    (hb : b ≠ a) : (h.setField a k v).get b = h.get b := by
  unfold JHeap.setField
  cases hg : h.get a with
  | none => rfl
  | some o =>
    cases o with
    | obj fs =>
      show (h.objs.set a _).get? b = h.objs.get? b
      exact List.get?_set_ne _ _ (Ne.symm hb)
    | arr es => rfl

theorem JHeap.len_push (h : JHeap) (a : Nat) (v : JV) : (h.push a v).len = h.len := by
  unfold JHeap.push
  cases hg : h.get a with
  | none => rfl
  | some o =>
    cases o with
    | obj fs => rfl
    | arr es => simp [JHeap.len]

theorem JHeap.get_push_ne {h : JHeap} {a : Nat} {v : JV} {b : Nat}
    (hb : b ≠ a) : (h.push a v).get b = h.get b := by
  unfold JHeap.push
  cases hg : h.get a with
  | none => rfl
  | some o =>
    cases o with
    | obj fs => rfl
    | arr es =>
      show (h.objs.set a _).get? b = h.objs.get? b
      exact List.get?_set_ne _ _ (Ne.symm hb)

theorem hext_refl (h : JHeap) : HExt h h := ⟨[], by simp⟩

theorem hext_trans {h1 h2 h3 : JHeap} (e12 : HExt h1 h2) (e23 : HExt h2 h3) :
    HExt h1 h3 := by
  obtain ⟨t1, ht1⟩ := e12
  obtain ⟨t2, ht2⟩ := e23
  exact ⟨t1 ++ t2, by rw [ht2, ht1, List.append_assoc]⟩

theorem hext_alloc (h : JHeap) (o : JObj) : HExt h (h.alloc o).1 := ⟨[o], rfl⟩

theorem HExt.len_le {h h2 : JHeap} (he : HExt h h2) : h.len ≤ h2.len := by
  obtain ⟨t, ht⟩ := he
  simp [JHeap.len, ht]

theorem HExt.get_lt {h h2 : JHeap} {a : Nat} (he : HExt h h2) (ha : a < h.len) :
    h2.get a = h.get a := by
  obtain ⟨t, ht⟩ := he
  show h2.objs.get? a = h.objs.get? a
  rw [ht]
  exact List.get?_append ha

theorem agreeBelow_refl (n : Nat) (h : JHeap) : agreeBelow n h h := fun _ _ => rfl

theorem agreeBelow_trans {n : Nat} {h1 h2 h3 : JHeap}
    (a12 : agreeBelow n h1 h2) (a23 : agreeBelow n h2 h3) : agreeBelow n h1 h3 :=
  fun a ha => (a23 a ha).trans (a12 a ha)

theorem agreeBelow_of_hext {n : Nat} {h h2 : JHeap} (hn : n ≤ h.len) (he : HExt h h2) :
    agreeBelow n h h2 :=
  fun a ha => he.get_lt (Nat.lt_of_lt_of_le ha hn)

theorem agreeBelow_alloc {n : Nat} {h : JHeap} (o : JObj) (hn : n ≤ h.len) :
    agreeBelow n h (h.alloc o).1 :=
  fun a ha => JHeap.get_alloc_lt (Nat.lt_of_lt_of_le ha hn)

theorem agreeBelow_setField {n a : Nat} {h : JHeap} {k : String} {v : JV} (hn : n ≤ a) :
    agreeBelow n h (h.setField a k v) :=
  fun b hb => JHeap.get_setField_ne (by omega)

theorem agreeBelow_push {n a : Nat} {h : JHeap} {v : JV} (hn : n ≤ a) :
    agreeBelow n h (h.push a v) :=
  fun b hb => JHeap.get_push_ne (by omega)

theorem foldl_setField_len (a : Nat) :
    ∀ (src : List (String × JV)) (h : JHeap),
      (src.foldl (fun h kv => h.setField a kv.1 kv.2) h).len = h.len := by
  intro src
  induction src with
  | nil => intro h; rfl
  | cons kv rest ih =>
    intro h
    rw [List.foldl_cons, ih, JHeap.len_setField]

theorem agreeBelow_foldl_setField {n a : Nat} (hn : n ≤ a) :
    ∀ (src : List (String × JV)) (h : JHeap),
      agreeBelow n h (src.foldl (fun h kv => h.setField a kv.1 kv.2) h) := by
  intro src
  induction src with
  | nil => intro h; exact agreeBelow_refl n h
  | cons kv rest ih =>
    intro h
    rw [List.foldl_cons]
    exact agreeBelow_trans (agreeBelow_setField hn) (ih _)

theorem assignFieldsJ_len (h : JHeap) (tgt : JV) (src : List (String × JV)) :
    (assignFieldsJ h tgt src).len = h.len := by
  cases tgt <;> try rfl
  case ref a => exact foldl_setField_len a src h

theorem agreeBelow_assignFields {n : Nat} {h : JHeap} {tgt : JV} {src : List (String × JV)}
    (htgt : ∀ a, tgt = .ref a → n ≤ a) : agreeBelow n h (assignFieldsJ h tgt src) := by
  cases tgt <;> try exact agreeBelow_refl n h
  case ref a => exact agreeBelow_foldl_setField (htgt a rfl) src h

theorem valInRange_mono {lo hi lo2 hi2 : Nat} {v : JV} (hlo : lo2 ≤ lo) (hhi : hi ≤ hi2)
    (hv : valInRange lo hi v) : valInRange lo2 hi2 v := by
  intro a ha
  obtain ⟨h1, h2⟩ := hv a ha
  omega

theorem objInRange_mono {lo hi lo2 hi2 : Nat} {o : JObj} (hlo : lo2 ≤ lo) (hhi : hi ≤ hi2)
    (ho : objInRange lo hi o) : objInRange lo2 hi2 o := by
  cases o with
  | obj fs => exact fun kv hkv => valInRange_mono hlo hhi (ho kv hkv)
  | arr es => exact fun v hv => valInRange_mono hlo hhi (ho v hv)

theorem regionClosed_init (h : JHeap) : regionClosed h.len h := by
  intro a o ha hg
  exact absurd (JHeap.get_some_lt hg) (by omega)

theorem okJ_mono : ∀ {f : Nat} {v : JV} {h h2 : JHeap},
    HExt h h2 → okJ f h v = true → okJ f h2 v = true := by
  intro f
  induction f with
  | zero =>
    intro v h h2 he hok
    cases v <;> simp_all [okJ]
  | succ f ih =>
    intro v h h2 he hok
    cases v <;> try simpa [okJ] using hok
    case ref a =>
      unfold okJ at hok ⊢
      cases hg : h.get a with
      | none => rw [hg] at hok; cases hok
      | some o =>
        rw [hg] at hok
        rw [he.get_lt (JHeap.get_some_lt hg), hg]
        cases o with
        | obj fs =>
          simp only [List.all_eq_true] at hok ⊢
          exact fun kv hkv => ih he (hok kv hkv)
        | arr es =>
          simp only [List.all_eq_true] at hok ⊢
          exact fun v hv => ih he (hok v hv)

theorem cloneFieldsWith_hext (cl : JHeap → JV → JHeap × JV)
    (hcl : ∀ h v, HExt h (cl h v).1) :
    ∀ (fs : List (String × JV)) (h : JHeap), HExt h (cloneFieldsWith cl h fs).1 := by
  intro fs
  induction fs with
  | nil => intro h; exact hext_refl h
  | cons kv rest ih =>
    intro h
    exact hext_trans (hcl h kv.2) (ih _)

theorem cloneElemsWith_hext (cl : JHeap → JV → JHeap × JV)
    (hcl : ∀ h v, HExt h (cl h v).1) :
    ∀ (es : List JV) (h : JHeap), HExt h (cloneElemsWith cl h es).1 := by
  intro es
  induction es with
  | nil => intro h; exact hext_refl h
  | cons v rest ih =>
    intro h
    exact hext_trans (hcl h v) (ih _)

theorem cloneJ_hext : ∀ (f : Nat) (h : JHeap) (v : JV), HExt h (cloneJ f h v).1 := by
  intro f
  induction f with
  | zero => intro h v; exact hext_refl h
  | succ f ih =>
    intro h v
    cases v <;> try exact hext_refl h
    case ref a =>
      show HExt h (cloneJ (f + 1) h (.ref a)).1
      cases hg : h.get a with
      | none => simp only [cloneJ, hg]; exact hext_refl h
      | some o =>
        cases o with
        | obj fs =>
          simp only [cloneJ, hg]
          exact hext_trans (cloneFieldsWith_hext (cloneJ f) ih fs h) (hext_alloc _ _)
        | arr es =>
          simp only [cloneJ, hg]
          exact hext_trans (cloneElemsWith_hext (cloneJ f) ih es h) (hext_alloc _ _)

theorem cloneFieldsWith_closed (f : Nat)
    (ih : ∀ (h : JHeap) (v : JV) (n : Nat), n ≤ h.len → regionClosed n h → okJ f h v = true →
      regionClosed n (cloneJ f h v).1 ∧ valInRange h.len (cloneJ f h v).1.len (cloneJ f h v).2) :
    ∀ (fs : List (String × JV)) (h : JHeap) (n : Nat), n ≤ h.len → regionClosed n h →
      fs.all (fun kv => okJ f h kv.2) = true →
      regionClosed n (cloneFieldsWith (cloneJ f) h fs).1 ∧
      h.len ≤ (cloneFieldsWith (cloneJ f) h fs).1.len ∧
      ∀ kv ∈ (cloneFieldsWith (cloneJ f) h fs).2,
        valInRange h.len (cloneFieldsWith (cloneJ f) h fs).1.len kv.2 := by
  intro fs
  induction fs with
  | nil =>
    intro h n hn hrc _
    refine ⟨hrc, Nat.le_refl _, ?_⟩
    intro kv hkv
    simp [cloneFieldsWith] at hkv
  | cons kv rest ihl =>
    intro h n hn hrc hok
    simp only [List.all_cons, Bool.and_eq_true] at hok
    obtain ⟨hok1, hokr⟩ := hok
    obtain ⟨hrc1, hvr1⟩ := ih h kv.2 n hn hrc hok1
    have hext1 : HExt h (cloneJ f h kv.2).1 := cloneJ_hext f h kv.2
    have hlen1 : h.len ≤ (cloneJ f h kv.2).1.len := hext1.len_le
    have hokr2 : rest.all (fun kv2 => okJ f (cloneJ f h kv.2).1 kv2.2) = true := by
      simp only [List.all_eq_true] at hokr ⊢
      exact fun kv2 hkv2 => okJ_mono hext1 (hokr kv2 hkv2)
    obtain ⟨hrc2, hlen2, hvr2⟩ :=
      ihl (cloneJ f h kv.2).1 n (Nat.le_trans hn hlen1) hrc1 hokr2
    show regionClosed n (cloneFieldsWith (cloneJ f) (cloneJ f h kv.2).1 rest).1 ∧
      h.len ≤ (cloneFieldsWith (cloneJ f) (cloneJ f h kv.2).1 rest).1.len ∧
      ∀ kv2 ∈ (kv.1, (cloneJ f h kv.2).2) ::
          (cloneFieldsWith (cloneJ f) (cloneJ f h kv.2).1 rest).2,
        valInRange h.len (cloneFieldsWith (cloneJ f) (cloneJ f h kv.2).1 rest).1.len kv2.2
    refine ⟨hrc2, Nat.le_trans hlen1 hlen2, ?_⟩
    intro kv2 hkv2
    rcases List.mem_cons.mp hkv2 with hkv2 | hkv2
    · subst hkv2
      exact valInRange_mono (Nat.le_refl _) hlen2 hvr1
    · exact valInRange_mono hlen1 (Nat.le_refl _) (hvr2 kv2 hkv2)

theorem cloneElemsWith_closed (f : Nat)
    (ih : ∀ (h : JHeap) (v : JV) (n : Nat), n ≤ h.len → regionClosed n h → okJ f h v = true →
      regionClosed n (cloneJ f h v).1 ∧ valInRange h.len (cloneJ f h v).1.len (cloneJ f h v).2) :
    ∀ (es : List JV) (h : JHeap) (n : Nat), n ≤ h.len → regionClosed n h →
      es.all (fun v => okJ f h v) = true →
      regionClosed n (cloneElemsWith (cloneJ f) h es).1 ∧
      h.len ≤ (cloneElemsWith (cloneJ f) h es).1.len ∧
      ∀ v ∈ (cloneElemsWith (cloneJ f) h es).2,
        valInRange h.len (cloneElemsWith (cloneJ f) h es).1.len v := by
  intro es
  induction es with
  | nil =>
    intro h n hn hrc _
    refine ⟨hrc, Nat.le_refl _, ?_⟩
    intro v hv
    simp [cloneElemsWith] at hv
  | cons v rest ihl =>
    intro h n hn hrc hok
    simp only [List.all_cons, Bool.and_eq_true] at hok
    obtain ⟨hok1, hokr⟩ := hok
    obtain ⟨hrc1, hvr1⟩ := ih h v n hn hrc hok1
    have hext1 : HExt h (cloneJ f h v).1 := cloneJ_hext f h v
    have hlen1 : h.len ≤ (cloneJ f h v).1.len := hext1.len_le
    have hokr2 : rest.all (fun v2 => okJ f (cloneJ f h v).1 v2) = true := by
      simp only [List.all_eq_true] at hokr ⊢
      exact fun v2 hv2 => okJ_mono hext1 (hokr v2 hv2)
    obtain ⟨hrc2, hlen2, hvr2⟩ :=
      ihl (cloneJ f h v).1 n (Nat.le_trans hn hlen1) hrc1 hokr2
    show regionClosed n (cloneElemsWith (cloneJ f) (cloneJ f h v).1 rest).1 ∧
      h.len ≤ (cloneElemsWith (cloneJ f) (cloneJ f h v).1 rest).1.len ∧
      ∀ v2 ∈ (cloneJ f h v).2 :: (cloneElemsWith (cloneJ f) (cloneJ f h v).1 rest).2,
        valInRange h.len (cloneElemsWith (cloneJ f) (cloneJ f h v).1 rest).1.len v2
    refine ⟨hrc2, Nat.le_trans hlen1 hlen2, ?_⟩
    intro v2 hv2
    rcases List.mem_cons.mp hv2 with hv2 | hv2
    · subst hv2
      exact valInRange_mono (Nat.le_refl _) hlen2 hvr1
    · exact valInRange_mono hlen1 (Nat.le_refl _) (hvr2 v2 hv2)

theorem regionClosed_alloc {n : Nat} {h : JHeap} {o : JObj}
    (hn : n ≤ h.len) (hrc : regionClosed n h) (ho : objInRange n (h.len + 1) o) :
    regionClosed n (h.alloc o).1 := by
  intro b ob hb hgb
  rw [JHeap.len_alloc]
  by_cases hb2 : b < h.len
  · rw [JHeap.get_alloc_lt hb2] at hgb
    exact objInRange_mono (Nat.le_refl n) (Nat.le_succ _) (hrc b ob hb hgb)
  · have hblt : b < h.len + 1 := by
      have hx := JHeap.get_some_lt hgb
      rwa [JHeap.len_alloc] at hx
    have hbe : b = h.len := by omega
    subst hbe
    have hself : (h.alloc o).1.get h.len = some o := JHeap.get_alloc_self h o
    have hoo : o = ob := Option.some.inj (hself.symm.trans hgb)
    subst hoo
    exact ho

theorem cloneJ_closed : ∀ (f : Nat) (h : JHeap) (v : JV) (n : Nat),
    n ≤ h.len → regionClosed n h → okJ f h v = true →
    regionClosed n (cloneJ f h v).1 ∧ valInRange h.len (cloneJ f h v).1.len (cloneJ f h v).2 := by
  intro f
  induction f with
  | zero =>
    intro h v n hn hrc hok
    cases v with
    | ref a => simp [okJ] at hok
    | null => exact ⟨hrc, fun b hb => nomatch hb⟩
    | undefined => exact ⟨hrc, fun b hb => nomatch hb⟩
    | bool b0 => exact ⟨hrc, fun b hb => nomatch hb⟩
    | num n0 => exact ⟨hrc, fun b hb => nomatch hb⟩
    | str s0 => exact ⟨hrc, fun b hb => nomatch hb⟩
  | succ f ih =>
    intro h v n hn hrc hok
    cases v with
    | null => exact ⟨hrc, fun b hb => nomatch hb⟩
    | undefined => exact ⟨hrc, fun b hb => nomatch hb⟩
    | bool b0 => exact ⟨hrc, fun b hb => nomatch hb⟩
    | num n0 => exact ⟨hrc, fun b hb => nomatch hb⟩
    | str s0 => exact ⟨hrc, fun b hb => nomatch hb⟩
    | ref a =>
      unfold okJ at hok
      cases hg : h.get a with
      | none => rw [hg] at hok; cases hok
      | some o =>
        rw [hg] at hok
        simp only [cloneJ, hg]
        cases o with
        | obj fs =>
          obtain ⟨hrc2, hlen2, hvr2⟩ := cloneFieldsWith_closed f ih fs h n hn hrc hok
          refine ⟨regionClosed_alloc (Nat.le_trans hn hlen2) hrc2 ?_, ?_⟩
          · intro kv hkv
            exact valInRange_mono hn (Nat.le_succ _) (hvr2 kv hkv)
          · intro b hb
            injection hb with hb
            rw [JHeap.len_alloc]
            have hb2 : (cloneFieldsWith (cloneJ f) h fs).1.len = b := hb
            omega
        | arr es =>
          obtain ⟨hrc2, hlen2, hvr2⟩ := cloneElemsWith_closed f ih es h n hn hrc hok
          refine ⟨regionClosed_alloc (Nat.le_trans hn hlen2) hrc2 ?_, ?_⟩
          · intro v hv
            exact valInRange_mono hn (Nat.le_succ _) (hvr2 v hv)
          · intro b hb
            injection hb with hb
            rw [JHeap.len_alloc]
            have hb2 : (cloneElemsWith (cloneJ f) h es).1.len = b := hb
            omega

/-- With sufficient fuel a clone of a reference is a reference (to the
freshly allocated copy). -/
theorem cloneJ_ref (f : Nat) (h : JHeap) (a : Nat) (hok : okJ f h (.ref a) = true) :
    ∃ b, (cloneJ f h (.ref a)).2 = .ref b := by
  cases f with
  | zero => simp [okJ] at hok
  | succ f =>
    unfold okJ at hok
    cases hg : h.get a with
    | none => rw [hg] at hok; cases hok
    | some o =>
      simp only [cloneJ, hg]
      cases o with
      | obj fs => exact ⟨_, rfl⟩
      | arr es => exact ⟨_, rfl⟩

theorem find_setAssocJ_ne (k k2 : String) (v : JV) (hk : k ≠ k2) :
    ∀ fs : List (String × JV),
      (setAssocJ fs k2 v).find? (fun kv => kv.1 = k) = fs.find? (fun kv => kv.1 = k) := by
  intro fs
  unfold setAssocJ
  by_cases hany : fs.any (fun kv => kv.1 = k2)
  · rw [if_pos hany]
    clear hany
    induction fs with
    | nil => rfl
    | cons kv rest ih =>
      simp only [List.map_cons]
      by_cases h1 : kv.1 = k2
      · have e1 : (decide (k2 = k)) = false := decide_eq_false (Ne.symm hk)
        have e2 : (decide (kv.1 = k)) = false := by
          rw [h1]
          exact decide_eq_false (Ne.symm hk)
        rw [if_pos h1]
        simp only [List.find?_cons, e1, e2]
        exact ih
      · rw [if_neg h1]
        simp only [List.find?_cons]
        by_cases h2 : kv.1 = k
        · simp [h2]
        · simp only [decide_eq_false h2]
          exact ih
  · rw [if_neg hany]
    rw [List.find?_append]
    have : ([(k2, v)].find? (fun kv => kv.1 = k)) = none := by
      simp [Ne.symm hk]
    rw [this, Option.or_none]

theorem JHeap.get_setField_obj {h : JHeap} {a : Nat} {k : String} {v : JV}
    {fs : List (String × JV)} (hg : h.get a = some (.obj fs)) :
    (h.setField a k v).get a = some (.obj (setAssocJ fs k v)) := by
  unfold JHeap.setField
  rw [hg]
  show (h.objs.set a _).get? a = _
  rw [List.get?_set_eq_of_lt _ (JHeap.get_some_lt hg)]

theorem JHeap.setField_no_obj {h : JHeap} {a : Nat} {k : String} {v : JV}
    (hg : ∀ fs, h.get a ≠ some (.obj fs)) : h.setField a k v = h := by
  unfold JHeap.setField
  cases hg2 : h.get a with
  | none => rfl
  | some o =>
    cases o with
    | obj fs => exact absurd hg2 (hg fs)
    | arr es => rfl

theorem hGetField_congr {h h2 : JHeap} {a : Nat} (he : h2.get a = h.get a) (k : String) :
    hGetField h2 (.ref a) k = hGetField h (.ref a) k := by
  simp only [hGetField]
  rw [he]

theorem hGetField_setField_ne_key {h : JHeap} {a : Nat} {k k2 : String} {v : JV}
    (hk : k ≠ k2) :
    hGetField (h.setField a k2 v) (.ref a) k = hGetField h (.ref a) k := by
  cases hg : h.get a with
  | none =>
    rw [JHeap.setField_no_obj (fun fs hfs => by rw [hg] at hfs; cases hfs)]
  | some o =>
    cases o with
    | arr es =>
      rw [JHeap.setField_no_obj (fun fs hfs => by rw [hg] at hfs; cases hfs)]
    | obj fs =>
      simp only [hGetField]
      rw [JHeap.get_setField_obj hg, hg]
      simp only [find_setAssocJ_ne k k2 v hk fs]

/-- A field value read from a closed region is itself in the region. -/
theorem hGetField_range {n : Nat} {h : JHeap} {qa : Nat} {k : String}
    (hrc : regionClosed n h) (hqa : n ≤ qa) {b : Nat}
    (hres : hGetField h (.ref qa) k = .ref b) : n ≤ b := by
  simp only [hGetField] at hres
  split at hres
  · rename_i fs heq
    split at hres
    · rename_i kv hf
      have hmem := List.mem_of_find?_eq_some hf
      have hor : objInRange n h.len (.obj fs) := hrc qa (.obj fs) hqa heq
      exact (hor kv hmem b hres).1
    · simp at hres
  · simp at hres

theorem get_foldl_setField_ne {a b : Nat} (hb : b ≠ a) :
    ∀ (src : List (String × JV)) (h : JHeap),
      (src.foldl (fun h kv => h.setField a kv.1 kv.2) h).get b = h.get b := by
  intro src
  induction src with
  | nil => intro h; rfl
  | cons kv rest ih =>
    intro h
    rw [List.foldl_cons, ih, JHeap.get_setField_ne hb]

theorem get_assignFields_ne {h : JHeap} {tgt : JV} {src : List (String × JV)} {b : Nat}
    (htgt : ∀ a, tgt = .ref a → b ≠ a) :
    (assignFieldsJ h tgt src).get b = h.get b := by
  cases tgt <;> try rfl
  case ref a => exact get_foldl_setField_ne (htgt a rfl) src h

theorem agreeBelow_weaken {n m : Nat} {h h2 : JHeap} (hnm : n ≤ m)
    (hag : agreeBelow m h h2) : agreeBelow n h h2 :=
  fun a ha => hag a (Nat.lt_of_lt_of_le ha hnm)

theorem jsOrAlloc_frame {n : Nat} (h : JHeap) (v : JV) (o : JObj)
    (hn : n ≤ h.len) (hv : ∀ a, v = .ref a → n ≤ a) :
    agreeBelow n h (jsOrAlloc h v o).1 ∧ h.len ≤ (jsOrAlloc h v o).1.len ∧
    (∀ a, (jsOrAlloc h v o).2 = .ref a → n ≤ a) := by
  unfold jsOrAlloc
  by_cases ht : jsTruthyJ v = true
  · simp only [ht, if_true]
    exact ⟨agreeBelow_refl _ _, Nat.le_refl _, hv⟩
  · simp only [Bool.not_eq_true] at ht
    simp only [ht, Bool.false_eq_true, if_false]
    refine ⟨agreeBelow_alloc _ hn, ?_, ?_⟩
    · rw [JHeap.len_alloc]
      omega
    · intro a ha
      injection ha with ha
      have hx : (h.alloc o).2 = h.len := rfl
      omega

theorem agreeBelow_setFieldV {n : Nat} (h : JHeap) (v : JV) (k : String) (x : JV)
    (hv : ∀ a, v = .ref a → n ≤ a) : agreeBelow n h (setFieldV h v k x) := by
  cases v <;> try exact agreeBelow_refl _ _
  case ref a => exact agreeBelow_setField (hv a rfl)

theorem agreeBelow_pushV {n : Nat} (h : JHeap) (v : JV) (x : JV)
    (hv : ∀ a, v = .ref a → n ≤ a) : agreeBelow n h (pushV h v x) := by
  cases v <;> try exact agreeBelow_refl _ _
  case ref a => exact agreeBelow_push (hv a rfl)

theorem agreeBelow_distinctMark {n : Nat} (h : JHeap) (qa : Nat) (hqa : n ≤ qa) :
    agreeBelow n h (distinctMark h qa) := by
  unfold distinctMark
  by_cases hc : hasPluralAssociationJ h (hGetField h (.ref qa) "include") = true
  · simp only [hc, if_true]
    exact agreeBelow_setField hqa
  · simp only [Bool.not_eq_true] at hc
    simp only [hc, Bool.false_eq_true, if_false]
    exact agreeBelow_refl _ _

/-- The hasMany body only writes to the clone (at `qa`) and to fresh or
clone-region objects, and returns the clone reference. -/
theorem hasManyBody_frame {n : Nat} (cfg : AssocConfig) (h : JHeap) (qa : Nat) (id : JV)
    (hqa : n ≤ qa) (hlen : n ≤ h.len) (hrc : regionClosed n h) :
    agreeBelow n h (hasManyBody cfg h qa id).1 ∧ (hasManyBody cfg h qa id).2 = .ref qa := by
  obtain ⟨ha1, _hl1, hv1⟩ := jsOrAlloc_frame h (hGetField h (.ref qa) "where") (.obj [])
    hlen (fun a hga => hGetField_range hrc hqa hga)
  refine ⟨?_, rfl⟩
  simp only [hasManyBody]
  refine agreeBelow_trans ?_ (agreeBelow_distinctMark _ _ hqa)
  refine agreeBelow_trans ?_ (agreeBelow_setFieldV _ _ _ _ hv1)
  cases cfg.scope with
  | none => exact agreeBelow_trans ha1 (agreeBelow_setField hqa)
  | some sc =>
    exact agreeBelow_trans (agreeBelow_trans ha1 (agreeBelow_setField hqa))
      (agreeBelow_assignFields hv1)

theorem btmScopeWhere_frame (cfg : AssocConfig) (h : JHeap) :
    agreeBelow h.len h (btmScopeWhere cfg h).1 ∧ h.len ≤ (btmScopeWhere cfg h).1.len := by
  unfold btmScopeWhere
  cases cfg.scope with
  | none => exact ⟨agreeBelow_refl _ _, Nat.le_refl _⟩
  | some sc =>
    refine ⟨agreeBelow_alloc _ (Nat.le_refl _), ?_⟩
    rw [JHeap.len_alloc]
    omega

theorem btmSetWhere_frame {n : Nat} (h : JHeap) (qa : Nat) (sv : JV)
    (hqa : n ≤ qa) (hn : n ≤ h.len) (hqalt : qa < h.len) :
    agreeBelow n h (btmSetWhere h qa sv) ∧ h.len ≤ (btmSetWhere h qa sv).len ∧
    (∀ k, k ≠ "where" →
      hGetField (btmSetWhere h qa sv) (.ref qa) k = hGetField h (.ref qa) k) := by
  unfold btmSetWhere
  refine ⟨?_, ?_, ?_⟩
  · exact agreeBelow_trans
      (agreeBelow_trans (agreeBelow_alloc _ hn)
        (agreeBelow_alloc _ (by rw [JHeap.len_alloc]; omega)))
      (agreeBelow_setField hqa)
  · rw [JHeap.len_setField, JHeap.len_alloc, JHeap.len_alloc]
    omega
  · intro k hk
    rw [hGetField_setField_ne_key hk]
    rw [hGetField_congr (JHeap.get_alloc_lt (by rw [JHeap.len_alloc]; omega))]
    rw [hGetField_congr (JHeap.get_alloc_lt hqalt)]

/-- The throughWhere construction touches only fresh addresses. -/
theorem btmThroughWhere_agree (cfg : AssocConfig) (h : JHeap) (qa : Nat) (id : JV) :
    agreeBelow h.len h (btmThroughWhere cfg h qa id).1 ∧
    h.len ≤ (btmThroughWhere cfg h qa id).1.len := by
  unfold btmThroughWhere
  have htw : (h.alloc (.obj [])).2 = h.len := rfl
  have ha1 : agreeBelow h.len h ((h.alloc (.obj [])).1.setField (h.alloc (.obj [])).2
      cfg.foreignKey id) :=
    agreeBelow_trans (agreeBelow_alloc _ (Nat.le_refl _))
      (agreeBelow_setField (by rw [htw]))
  have hl1 : h.len ≤ ((h.alloc (.obj [])).1.setField (h.alloc (.obj [])).2
      cfg.foreignKey id).len := by
    rw [JHeap.len_setField, JHeap.len_alloc]
    omega
  have ha2 : agreeBelow h.len h (match cfg.throughScope with
      | some sc => assignFieldsJ ((h.alloc (.obj [])).1.setField (h.alloc (.obj [])).2
          cfg.foreignKey id) (.ref (h.alloc (.obj [])).2) sc
      | none => (h.alloc (.obj [])).1.setField (h.alloc (.obj [])).2 cfg.foreignKey id) := by
    cases cfg.throughScope with
    | none => exact ha1
    | some sc =>
      refine agreeBelow_trans ha1 (agreeBelow_assignFields ?_)
      intro a ha
      injection ha with ha
      omega
  have hl2 : h.len ≤ (match cfg.throughScope with
      | some sc => assignFieldsJ ((h.alloc (.obj [])).1.setField (h.alloc (.obj [])).2
          cfg.foreignKey id) (.ref (h.alloc (.obj [])).2) sc
      | none => (h.alloc (.obj [])).1.setField (h.alloc (.obj [])).2 cfg.foreignKey id).len := by
    cases cfg.throughScope with
    | none => exact hl1
    | some sc => rw [assignFieldsJ_len]; exact hl1
  by_cases hc : (jsTruthyJ (hGetField (match cfg.throughScope with
      | some sc => assignFieldsJ ((h.alloc (.obj [])).1.setField (h.alloc (.obj [])).2
          cfg.foreignKey id) (.ref (h.alloc (.obj [])).2) sc
      | none => (h.alloc (.obj [])).1.setField (h.alloc (.obj [])).2 cfg.foreignKey id)
      (.ref qa) "through") &&
      jsTruthyJ (hGetField (match cfg.throughScope with
      | some sc => assignFieldsJ ((h.alloc (.obj [])).1.setField (h.alloc (.obj [])).2
          cfg.foreignKey id) (.ref (h.alloc (.obj [])).2) sc
      | none => (h.alloc (.obj [])).1.setField (h.alloc (.obj [])).2 cfg.foreignKey id)
      (hGetField (match cfg.throughScope with
      | some sc => assignFieldsJ ((h.alloc (.obj [])).1.setField (h.alloc (.obj [])).2
          cfg.foreignKey id) (.ref (h.alloc (.obj [])).2) sc
      | none => (h.alloc (.obj [])).1.setField (h.alloc (.obj [])).2 cfg.foreignKey id)
      (.ref qa) "through") "where")) = true
  · simp only [hc, if_true]
    refine ⟨agreeBelow_trans ha2 (agreeBelow_trans (agreeBelow_alloc _ hl2)
      (agreeBelow_alloc _ ?_)), ?_⟩
    · rw [JHeap.len_alloc]
      omega
    · rw [JHeap.len_alloc, JHeap.len_alloc]
      omega
  · simp only [Bool.not_eq_true] at hc
    simp only [hc, Bool.false_eq_true, if_false]
    exact ⟨ha2, hl2⟩

theorem btmPushInclude_frame {n : Nat} (cfg : AssocConfig) (h : JHeap) (qa : Nat) (twv : JV)
    (hn : n ≤ h.len) (hqa : n ≤ qa)
    (hinc : ∀ a, hGetField h (.ref qa) "include" = .ref a → n ≤ a) :
    agreeBelow n h (btmPushInclude cfg h qa twv) := by
  obtain ⟨ha1, hl1, hv1⟩ := jsOrAlloc_frame h (hGetField h (.ref qa) "include") (.arr [])
    hn hinc
  simp only [btmPushInclude]
  refine agreeBelow_trans ?_ (agreeBelow_pushV _ _ _ hv1)
  refine agreeBelow_trans ?_ (agreeBelow_alloc _ ?_)
  · exact agreeBelow_trans ha1 (agreeBelow_setField hqa)
  · rw [JHeap.len_setField]
    omega

theorem btmThroughBlock_frame {n : Nat} (cfg : AssocConfig) (h : JHeap) (qa : Nat) (id : JV)
    (hn : n ≤ h.len) (hqa : n ≤ qa) (hqalt : qa < h.len)
    (hinc : ∀ a, hGetField h (.ref qa) "include" = .ref a → n ≤ a) :
    agreeBelow n h (btmThroughBlock cfg h qa id) := by
  unfold btmThroughBlock
  by_cases ht : cfg.throughModel = true
  · simp only [ht, if_true]
    obtain ⟨haT, hlT⟩ := btmThroughWhere_agree cfg h qa id
    have hincT : hGetField (btmThroughWhere cfg h qa id).1 (.ref qa) "include" =
        hGetField h (.ref qa) "include" :=
      hGetField_congr (haT qa hqalt) _
    refine agreeBelow_trans (agreeBelow_weaken hn haT) ?_
    refine btmPushInclude_frame cfg _ qa _ (Nat.le_trans hn hlT) hqa ?_
    intro a ha
    rw [hincT] at ha
    exact hinc a ha
  · simp only [Bool.not_eq_true] at ht
    simp only [ht, Bool.false_eq_true, if_false]
    exact agreeBelow_refl _ _

/-- The belongsToMany body only writes to the clone (at `qa`) and to fresh
or clone-region objects, and returns the clone reference. -/
theorem belongsToManyBody_frame {n : Nat} (cfg : AssocConfig) (h : JHeap) (qa : Nat) (id : JV)
    (hqa : n ≤ qa) (hqalt : qa < h.len) (hlen : n ≤ h.len) (hrc : regionClosed n h) :
    agreeBelow n h (belongsToManyBody cfg h qa id).1 ∧
    (belongsToManyBody cfg h qa id).2 = .ref qa := by
  refine ⟨?_, rfl⟩
  simp only [belongsToManyBody]
  obtain ⟨haS, hlS⟩ := btmScopeWhere_frame cfg h
  obtain ⟨haW, hlW, hstW⟩ := btmSetWhere_frame (btmScopeWhere cfg h).1 qa
    (btmScopeWhere cfg h).2 hqa (Nat.le_trans hlen hlS) (Nat.lt_of_lt_of_le hqalt hlS)
  have hincW : hGetField (btmSetWhere (btmScopeWhere cfg h).1 qa (btmScopeWhere cfg h).2)
      (.ref qa) "include" = hGetField h (.ref qa) "include" := by
    rw [hstW "include" (by decide)]
    exact hGetField_congr (haS qa hqalt) _
  have hincB : ∀ a, hGetField (btmSetWhere (btmScopeWhere cfg h).1 qa (btmScopeWhere cfg h).2)
      (.ref qa) "include" = .ref a → n ≤ a := by
    intro a ha
    rw [hincW] at ha
    exact hGetField_range hrc hqa ha
  refine agreeBelow_trans ?_ (agreeBelow_distinctMark _ _ hqa)
  refine agreeBelow_trans (agreeBelow_trans (agreeBelow_weaken hlen haS) haW) ?_
  exact btmThroughBlock_frame cfg _ qa id (Nat.le_trans (Nat.le_trans hlen hlS) hlW) hqa
    (Nat.lt_of_lt_of_le (Nat.lt_of_lt_of_le hqalt hlS) hlW) hincB

/-- `hasManyQueryGenerator` never modifies a pre-existing object — the
caller's base query included — and returns a freshly allocated clone. -/
theorem hasManyQueryGenerator_frame (cfg : AssocConfig) (f : Nat) (h : JHeap) (qa : Nat)
    (id : JV) (hok : okJ f h (.ref qa) = true) :
    agreeBelow h.len h (hasManyQueryGenerator cfg f h (.ref qa) id).1 ∧
    ∃ r, (hasManyQueryGenerator cfg f h (.ref qa) id).2 = .ref r ∧ h.len ≤ r := by
  obtain ⟨hrc1, hvr1⟩ := cloneJ_closed f h (.ref qa) h.len (Nat.le_refl _)
    (regionClosed_init h) hok
  obtain ⟨qb, hqb⟩ := cloneJ_ref f h qa hok
  have hext1 := cloneJ_hext f h (.ref qa)
  obtain ⟨hq1, hq2⟩ := hvr1 qb hqb
  unfold hasManyQueryGenerator
  simp only [hqb]
  obtain ⟨hbody, hres⟩ := hasManyBody_frame cfg (cloneJ f h (.ref qa)).1 qb id hq1
    hext1.len_le hrc1
  exact ⟨agreeBelow_trans (agreeBelow_of_hext (Nat.le_refl _) hext1) hbody,
    ⟨qb, hres, hq1⟩⟩

/-- `belongsToManyQueryGenerator` never modifies a pre-existing object —
the caller's base query included — and returns a freshly allocated
clone. -/
theorem belongsToManyQueryGenerator_frame (cfg : AssocConfig) (f : Nat) (h : JHeap) (qa : Nat)
    (id : JV) (hok : okJ f h (.ref qa) = true) :
    agreeBelow h.len h (belongsToManyQueryGenerator cfg f h (.ref qa) id).1 ∧
    ∃ r, (belongsToManyQueryGenerator cfg f h (.ref qa) id).2 = .ref r ∧ h.len ≤ r := by
  obtain ⟨hrc1, hvr1⟩ := cloneJ_closed f h (.ref qa) h.len (Nat.le_refl _)
    (regionClosed_init h) hok
  obtain ⟨qb, hqb⟩ := cloneJ_ref f h qa hok
  have hext1 := cloneJ_hext f h (.ref qa)
  obtain ⟨hq1, hq2⟩ := hvr1 qb hqb
  unfold belongsToManyQueryGenerator
  simp only [hqb]
  obtain ⟨hbody, hres⟩ := belongsToManyBody_frame cfg (cloneJ f h (.ref qa)).1 qb id hq1
    hq2 hext1.len_le hrc1
  exact ⟨agreeBelow_trans (agreeBelow_of_hext (Nat.le_refl _) hext1) hbody,
    ⟨qb, hres, hq1⟩⟩

/-- C7: both association query rewriters leave every pre-existing heap
object — in particular the caller-supplied base query and everything it
references — byte-for-byte unmodified, and return a reference to a freshly
allocated clone: all scope merging, foreign-key pinning, through-table
inclusion and distinct marking happen only at addresses allocated by the
call (the hypothesis `okJ` states the clone fuel covers the finite, acyclic
base query). -/
theorem c7_generators_pure (cfg cfg2 : AssocConfig) (f : Nat) (h : JHeap) (qa : Nat)
    (id : JV) (hok : okJ f h (.ref qa) = true) :
    ((∀ a, a < h.len → ((hasManyQueryGenerator cfg f h (.ref qa) id).1).get a = h.get a) ∧
      ∃ r, (hasManyQueryGenerator cfg f h (.ref qa) id).2 = .ref r ∧ h.len ≤ r) ∧
    ((∀ a, a < h.len →
        ((belongsToManyQueryGenerator cfg2 f h (.ref qa) id).1).get a = h.get a) ∧
      ∃ r, (belongsToManyQueryGenerator cfg2 f h (.ref qa) id).2 = .ref r ∧ h.len ≤ r) :=
  ⟨⟨fun a ha => (hasManyQueryGenerator_frame cfg f h qa id hok).1 a ha,
    (hasManyQueryGenerator_frame cfg f h qa id hok).2⟩,
   ⟨fun a ha => (belongsToManyQueryGenerator_frame cfg2 f h qa id hok).1 a ha,
    (belongsToManyQueryGenerator_frame cfg2 f h qa id hok).2⟩⟩

/-- Witness for C7 at a concrete base query (with where, include carrying a
to-many association, attributes, and a through-where). -/
theorem c7_witness :
    okJ 5 heapW (.ref 0) = true ∧
    (((∀ a, a < heapW.len →
        ((hasManyQueryGenerator cfgHasMany 5 heapW (.ref 0) (.num 7)).1).get a = heapW.get a) ∧
      ∃ r, (hasManyQueryGenerator cfgHasMany 5 heapW (.ref 0) (.num 7)).2 = .ref r ∧
        heapW.len ≤ r) ∧
     ((∀ a, a < heapW.len →
        ((belongsToManyQueryGenerator cfgBelongsToMany 5 heapW (.ref 0) (.num 7)).1).get a =
          heapW.get a) ∧
      ∃ r, (belongsToManyQueryGenerator cfgBelongsToMany 5 heapW (.ref 0) (.num 7)).2 =
          .ref r ∧ heapW.len ≤ r)) :=
  ⟨by decide, c7_generators_pure cfgHasMany cfgBelongsToMany 5 heapW 0 (.num 7) (by decide)⟩

end RoasRestql
